import Mathlib

/-!
Verification of the siyuan task-management plugin against its specification.

The definitions below are a shallow embedding of the TypeScript sources:
  * `src/conf/configManager.ts` — work-item LRU cache with TTL, token cache;
  * `src/services/larkService.ts` — token refresh, worklog duration parsing;
  * `src/services/larkWorkLogService.ts` — time-entry validation;
  * `src/utils/pathHelper.ts` — path/expression resolver;
  * `src/services/databaseService.ts` — option colors and the field projector.

JS `Record<string, T>` objects are modelled as association lists in property
insertion order; `delete obj[k]` is `mapDelete`; `obj[k] = v` is `setAssoc`.
Timestamps are integers (epoch milliseconds).
-/

/-- Association-list lookup, modelling JS property access `m[k]`. -/
def getAssoc {α : Type} (m : List (String × α)) (k : String) : Option α :=
  match m with
  | [] => none
  | (k2, v) :: rest => if k2 = k then some v else getAssoc rest k

/-- Association-list update, modelling JS property assignment `m[k] = v`:
the value is replaced in place if the key exists, otherwise the pair is
appended (JS string-keyed property insertion order). -/
def setAssoc {α : Type} (m : List (String × α)) (k : String) (v : α) :
    List (String × α) :=
  match m with
  | [] => [(k, v)]
  | (k2, v2) :: rest => if k2 = k then (k, v) :: rest else (k2, v2) :: setAssoc rest k v

/-- Association-list deletion, modelling JS `delete m[k]`. -/
def mapDelete {α : Type} (m : List (String × α)) (k : String) :
    List (String × α) :=
  m.filter (fun p => decide (p.1 ≠ k))

/-- Work-item identity cache entry (`WorkItemIdCache` in `src/types/index.ts`). -/
structure WorkItemIdCache where
  issueKey : String
  workItemTypeId : String
  workItemEntityId : String
  expireTime : Int
deriving Repr, DecidableEq

/-- Model of `ConfigManager.MAX_CACHE_SIZE` (`src/conf/configManager.ts`). -/
def MAX_CACHE_SIZE : Nat := 100

/-- The mutable cache fields of `ConfigManager`: the entry map
`workItemCache` and the LRU order list `workItemCacheKeys`
(most-recently-used at the tail). -/
structure CacheState where
  workItemCache : List (String × WorkItemIdCache)
  workItemCacheKeys : List String
deriving Repr, DecidableEq

/-- The initial (empty) cache state. -/
def emptyCacheState : CacheState := ⟨[], []⟩

/-- Model of `ConfigManager.updateCacheUsage`: remove the first occurrence of the key
(`indexOf` + `splice`) and push it to the tail of the list. -/
def updateCacheUsage (keys : List String) (issueKey : String) : List String :=
  keys.erase issueKey ++ [issueKey]

/-- Model of `ConfigManager.getWorkItemCache`: return the entry iff present and
unexpired (`expireTime > Date.now()`), touching its LRU position; an expired
entry is deleted from the map and its key removed from the list. -/
def getWorkItemCache (s : CacheState) (issueKey : String) (now : Int) :
    Option WorkItemIdCache × CacheState :=
  match getAssoc s.workItemCache issueKey with
  | some cache =>
    if now < cache.expireTime then
      (some cache, ⟨s.workItemCache, updateCacheUsage s.workItemCacheKeys issueKey⟩)
    else
      (none, ⟨mapDelete s.workItemCache issueKey, s.workItemCacheKeys.erase issueKey⟩)
  | none => (none, s)

/-- Model of `ConfigManager.evictCache`: `shift()` the oldest key off the front of the
LRU list, and delete its map entry only when the shifted key is truthy
(`if (oldestKey)` — the delete is skipped for the empty-string key). -/
def evictCache (s : CacheState) : CacheState :=
  match s.workItemCacheKeys with
  | [] => s
  | oldestKey :: rest =>
    if oldestKey ≠ "" then ⟨mapDelete s.workItemCache oldestKey, rest⟩
    else ⟨s.workItemCache, rest⟩

/-- Model of `ConfigManager.setWorkItemCache`: evict once if the key is new
(`!(issueKey in this.workItemCache)`) and the key list is at capacity, then
store the entry with `expireTime = Date.now() + ttl` and mark it
most-recently-used. -/
def setWorkItemCache (s : CacheState) (issueKey workItemTypeId workItemEntityId : String)
    (ttl : Int) (now : Int) : CacheState :=
  let s1 :=
    if (getAssoc s.workItemCache issueKey).isNone ∧
        MAX_CACHE_SIZE ≤ s.workItemCacheKeys.length then
      evictCache s
    else s
  ⟨setAssoc s1.workItemCache issueKey ⟨issueKey, workItemTypeId, workItemEntityId, now + ttl⟩,
   updateCacheUsage s1.workItemCacheKeys issueKey⟩

/-- Model of `ConfigManager.clearWorkItemCache`: with a truthy key argument delete that
entry and its list position; with no argument (or a falsy key such as `""`)
clear everything. -/
def clearWorkItemCache (s : CacheState) (issueKey : Option String) : CacheState :=
  match issueKey with
  | some k =>
    if k ≠ "" then ⟨mapDelete s.workItemCache k, s.workItemCacheKeys.erase k⟩
    else ⟨[], []⟩
  | none => ⟨[], []⟩

/-- One public call on the work-item cache. -/
inductive CacheOp where
  | set (issueKey workItemTypeId workItemEntityId : String) (ttl now : Int)
  | get (issueKey : String) (now : Int)
  | clear (issueKey : Option String)
deriving Repr, DecidableEq

/-- Apply one cache call to a state. -/
def applyCacheOp (s : CacheState) : CacheOp → CacheState
  | .set k t e ttl now => setWorkItemCache s k t e ttl now
  | .get k now => (getWorkItemCache s k now).2
  | .clear k => clearWorkItemCache s k

/-- Run a call sequence from the empty cache. -/
def runCacheOps (ops : List CacheOp) : CacheState :=
  ops.foldl applyCacheOp emptyCacheState

/-- Insert a list of keys via `setWorkItemCache`, all with the same payload. -/
def insertKeys (s : CacheState) (ks : List String) (tid eid : String)
    (ttl now : Int) : CacheState :=
  ks.foldl (fun st k => setWorkItemCache st k tid eid ttl now) s

/-- The keys of the entry map, in property order. -/
def cacheKeysOf (s : CacheState) : List String :=
  s.workItemCache.map Prod.fst

/-- Well-formedness of a cache state: the LRU list and the map have no
duplicate keys, they carry the same key set, the list is within capacity and
holds no empty-string key. -/
def CacheWF (s : CacheState) : Prop :=
  s.workItemCacheKeys.Nodup ∧
  (cacheKeysOf s).Nodup ∧
  (∀ k ∈ s.workItemCacheKeys, k ∈ cacheKeysOf s) ∧
  (∀ k ∈ cacheKeysOf s, k ∈ s.workItemCacheKeys) ∧
  s.workItemCacheKeys.length ≤ MAX_CACHE_SIZE ∧
  (∀ k ∈ s.workItemCacheKeys, k ≠ "")

/-- Is a cache call's key a truthy (non-empty) string? `get` and `clear`
handle any key; only `set` is sensitive (see `evictCache`). -/
def cacheOpKeyNonempty (op : CacheOp) : Bool :=
  match op with
  | .set k _ _ _ _ => k ≠ ""
  | .get _ _ => true
  | .clear _ => true

/-- A one-character key for building concrete scenarios. -/
def natKey (n : Nat) : String := String.mk [Char.ofNat (65 + n)]

/-- Entry map holding one freshly-set entry per key, in insertion order. -/
def mapOfKeys (ks : List String) (tid eid : String) (exp : Int) :
    List (String × WorkItemIdCache) :=
  ks.map (fun k => (k, ⟨k, tid, eid, exp⟩))

/-- The 101 distinct keys whose first key is the empty string. -/
def lruCexKeys : List String := "" :: (List.range 100).map natKey

/-- The 101 corresponding `setWorkItemCache` calls. -/
def lruCexOps : List CacheOp :=
  lruCexKeys.map (fun k => .set k "t" "e" 1000000 0)

/-- State reached by replaying `lruCexOps` from the empty cache. -/
def c9CexState : CacheState := runCacheOps lruCexOps

/-- State reached by inserting the 101 `lruCexKeys` directly. -/
def c4CexState : CacheState := insertKeys emptyCacheState lruCexKeys "t" "e" 1000000 0

/-- A full (capacity-100) cache whose oldest key is the empty string. -/
def c5CexKeys : List String := "" :: (List.range 99).map natKey

/-- The cache state built over `c5CexKeys`. -/
def c5CexState : CacheState :=
  ⟨mapOfKeys c5CexKeys "t" "e" 1000000, c5CexKeys⟩

/-- A batch of 100 fresh keys disjoint from `c5CexKeys`. -/
def c5FreshKeys : List String := (List.range 100).map (fun i => natKey (200 + i))

/-- State after touching `""` and then inserting 99 fresh keys. -/
def c5CexAfter99 : CacheState :=
  insertKeys (getWorkItemCache c5CexState "" 0).2 (c5FreshKeys.take 99) "t" "e" 1000000 0

/-- State after touching `""` and then inserting all 100 fresh keys. -/
def c5CexFinal : CacheState :=
  insertKeys (getWorkItemCache c5CexState "" 0).2 c5FreshKeys "t" "e" 1000000 0

/-- A full well-formed cache over 100 distinct non-empty keys. -/
def c5WitKeys : List String := (List.range 100).map natKey

/-- The well-formed full cache state used for witnessing. -/
def c5WitState : CacheState :=
  ⟨mapOfKeys c5WitKeys "t" "e" 1000000, c5WitKeys⟩

/-- A batch of 100 fresh keys disjoint from `c5WitKeys`. -/
def c5WitFresh : List String := (List.range 100).map (fun i => natKey (200 + i))

/-- A list of 101 distinct non-empty keys for witnessing the amended LRU claim. -/
def c4WitKeys : List String := (List.range 101).map natKey

/-- Lark token cache entry (`LarkTokenCache` in `src/types/index.ts`). -/
structure LarkTokenCache where
  token : String
  expireTime : Int
deriving Repr, DecidableEq

/-- The payload of a successful `POST /open_api/authen/plugin_token`
response (`data.data`): the token string and its TTL in seconds. -/
structure PluginTokenResponse where
  token : String
  expire_time : Int
deriving Repr, DecidableEq

/-- Result of `LarkService.getLarkToken`: the returned token, the token
cache afterwards, and whether the credential exchange was performed. -/
structure LarkTokenResult where
  token : String
  newCache : Option LarkTokenCache
  networkUsed : Bool
deriving Repr, DecidableEq

/-- The refresh path of `LarkService.getLarkToken`: the credential exchange
(modelled by its response, `none` standing for a missing/invalid body) either
throws, or computes `expireTime = now + expire_time * 1000 - 60 * 1000` and
persists the new cache entry via `ConfigManager.setLarkTokenCache`. -/
def refreshLarkToken (currentTime : Int) (response : Option PluginTokenResponse) :
    Except String LarkTokenResult :=
  match response with
  | none => .error "获取飞书token失败"
  | some r =>
    if r.token = "" then .error "获取飞书token失败"
    else
      .ok ⟨r.token, some ⟨r.token, currentTime + r.expire_time * 1000 - 60 * 1000⟩, true⟩

/-- Model of `LarkService.getLarkToken`: use the cached token when it is truthy and
`expireTime > currentTime`; otherwise refresh over the network. -/
def getLarkToken (tokenCache : Option LarkTokenCache) (currentTime : Int)
    (response : Option PluginTokenResponse) : Except String LarkTokenResult :=
  match tokenCache with
  | some tc =>
    if tc.token ≠ "" ∧ currentTime < tc.expireTime then .ok ⟨tc.token, some tc, false⟩
    else refreshLarkToken currentTime response
  | none => refreshLarkToken currentTime response

/-- JSON-like values carried by issue data. -/
inductive JsonValue where
  | null
  | str (s : String)
  | num (n : Int)
  | obj (fields : List (String × JsonValue))
deriving Repr

/-- JS `String(value)` on the values above (only strings matter here). -/
def jsonToString : JsonValue → String
  | .null => "null"
  | .str s => s
  | .num n => toString n
  | .obj _ => "[object Object]"

/-- Does `pat` occur at the start of `l`? -/
def startsWithChars : List Char → List Char → Bool
  | [], _ => true
  | _ :: _, [] => false
  | p :: ps, c :: cs => p = c && startsWithChars ps cs

/-- Does `pat` occur anywhere in the character list? -/
def containsChars (pat : List Char) : List Char → Bool
  | [] => startsWithChars pat []
  | c :: cs => startsWithChars pat (c :: cs) || containsChars pat cs

/-- JS `s.includes(pat)`. -/
def strIncludes (s pat : String) : Bool := containsChars pat.data s.data

/-- JS `s.startsWith(pat)`. -/
def strStartsWith (s pat : String) : Bool := startsWithChars pat.data s.data

/-- JS `s.substring(n)` for an ASCII prefix. -/
def strDrop (s : String) (n : Nat) : String := String.mk (s.data.drop n)

/-- JS `s.trim()`. -/
def strTrim (s : String) : String :=
  String.mk (((s.data.dropWhile Char.isWhitespace).reverse.dropWhile Char.isWhitespace).reverse)

/-- The substrings rejected by `PathHelper.evaluateJsExpression`. -/
def jsDenylist : List String := ["window", "document", "eval", "Function", "require"]

/-- The outcome of handing an expression string and the bound `data` object
to `new Function('data', ...)`: an exception (`Except.error`), an `undefined`
result (`.ok none`), or a value. The host JS engine is kept abstract. -/
def JsOracle : Type := String → JsonValue → Except String (Option JsonValue)

/-- Model of `PathHelper.evaluateJsExpression`: trim the expression, reject it when it
contains a denylisted substring, and otherwise run it, mapping every thrown
error to `undefined`. -/
def evaluateJsExpression (jsEval : JsOracle) (data : JsonValue) (expression : String) :
    Option JsonValue :=
  let expr := strTrim expression
  if jsDenylist.any (fun bad => strIncludes expr bad) then none
  else
    match jsEval expr data with
    | .error _ => none
    | .ok v => v

/-- Model of `PathHelper.getValueByPath`: only the `js:` branch exists in the source;
every other path falls off the end of the method and yields `undefined`. -/
def getValueByPath (jsEval : JsOracle) (obj : JsonValue) (path : String) :
    Option JsonValue :=
  if strStartsWith path "js:" then
    evaluateJsExpression jsEval obj (strDrop path 3)
  else
    none

/-- Per-field option-color assignments, `optionName -> colorId`. -/
abbrev FieldOptionColors := List (String × String)

/-- Maps `fieldName -> (optionName -> colorId)` as persisted by `ConfigManager`. -/
abbrev OptionColorMap := List (String × FieldOptionColors)

/-- The 14-entry palette in `DatabaseService.getOptionColor`. -/
def colors : List String :=
  ["1", "2", "3", "4", "5", "6", "7", "8", "9", "10", "11", "12", "13", "14"]

/-- The assignment tail of `DatabaseService.getOptionColor`: pick the first
palette color not yet used for the field, fall back to
`keys(fieldMap).length % 14` when all are used, and store the assignment. -/
def assignOptionColor (optionColors1 : OptionColorMap) (fieldName optionName : String)
    (fieldMap : FieldOptionColors) : String × OptionColorMap :=
  let usedColors := fieldMap.map Prod.snd
  let availableColor :=
    match colors.find? (fun c => !(usedColors.contains c)) with
    | some c => c
    | none => colors.getD (fieldMap.length % colors.length) ""
  (availableColor, setAssoc optionColors1 fieldName (setAssoc fieldMap optionName availableColor))

/-- The auto-assignment path of `DatabaseService.getOptionColor`: initialise
the field's map when absent, return an existing truthy color, otherwise
assign a new one. -/
def getOptionColorAuto (optionColors : OptionColorMap) (fieldName optionName : String) :
    String × OptionColorMap :=
  let optionColors1 :=
    if (getAssoc optionColors fieldName).isSome then optionColors
    else setAssoc optionColors fieldName []
  let fieldMap := (getAssoc optionColors1 fieldName).getD []
  match getAssoc fieldMap optionName with
  | some c =>
    if c ≠ "" then (c, optionColors1)
    else assignOptionColor optionColors1 fieldName optionName fieldMap
  | none => assignOptionColor optionColors1 fieldName optionName fieldMap

/-- Model of `DatabaseService.getOptionColor`: a truthy fixed color wins; otherwise
auto-assign against the mutable auto map (returned alongside the color). -/
def getOptionColor (fixedOptionColors optionColors : OptionColorMap)
    (fieldName optionName : String) : String × OptionColorMap :=
  match (getAssoc fixedOptionColors fieldName).bind (fun fm => getAssoc fm optionName) with
  | some c =>
    if c ≠ "" then (c, optionColors)
    else getOptionColorAuto optionColors fieldName optionName
  | none => getOptionColorAuto optionColors fieldName optionName

/-- Constant `FieldType.TEXT` (`src/types/index.ts`). -/
def FieldType.TEXT : String := "text"

/-- Constant `FieldType.DATE`. -/
def FieldType.DATE : String := "date"

/-- Constant `FieldType.SELECT`. -/
def FieldType.SELECT : String := "select"

/-- Constant `FieldType.URL`. -/
def FieldType.URL : String := "url"

/-- One option in an `updateAttrViewColOptions` payload. -/
structure SelectOption where
  color : String
  name : String
deriving Repr, DecidableEq

/-- The operations `DatabaseService` submits in a transaction, with the
payload fields that the spec talks about. -/
inductive AvOperation where
  | updateAttrViewColOptions (id avID : String) (data : List SelectOption)
  | updateAttrViewCellDate (id avID keyID rowID : String) (content : Int)
  | updateAttrViewCellSelect (id avID keyID rowID : String) (color content : String)
  | updateAttrViewCellText (id avID keyID rowID : String) (content : String)
  | updateAttrViewCellURL (id avID keyID rowID : String) (content : String)
  | doUpdateUpdated (id : String) (data : String)
deriving Repr, DecidableEq

/-- What `DatabaseService` reads from the DOM for one row: whether the row
element was found, the resolved database id, the column-name to column-id
map (`getColumnsMap`), and the cell id found per column id. -/
structure DomRowContext where
  rowFound : Bool
  avId : Option String
  columnsMap : List (String × String)
  cellId : String → Option String

/-- Model of `DatabaseService.createOptionOperation`: ensure the option exists with
its assigned color (threads the auto color map). -/
def createOptionOperation (fixed auto : OptionColorMap) (fieldName : String)
    (value : JsonValue) (keyID avId : String) : AvOperation × OptionColorMap :=
  let optionName := jsonToString value
  let r := getOptionColor fixed auto fieldName optionName
  (.updateAttrViewColOptions keyID avId [⟨r.1, optionName⟩], r.2)

/-- Model of `DatabaseService.createSelectOperation`. -/
def createSelectOperation (fixed auto : OptionColorMap) (fieldName : String)
    (value : JsonValue) (cellID keyID rowId avId : String) :
    AvOperation × OptionColorMap :=
  let optionName := jsonToString value
  let r := getOptionColor fixed auto fieldName optionName
  (.updateAttrViewCellSelect cellID avId keyID rowId r.1 optionName, r.2)

/-- Model of `DatabaseService.prepareFieldsToUpdate`: resolve each mapped path and
keep the fields whose value is not `undefined`, in mapping order. -/
def prepareFieldsToUpdate (jsEval : JsOracle) (issueData : JsonValue)
    (fieldMappings : List (String × String)) : List (String × JsonValue) :=
  fieldMappings.filterMap (fun p =>
    match getValueByPath jsEval issueData p.2 with
    | some v => some (p.1, v)
    | none => none)

/-- Model of `DatabaseService.createUpdateOperations`: one typed operation per field
(two for `select`: ensure-option then select-cell), skipping fields without
a matching column or cell; threads the auto color map through the
`getOptionColor` calls. `dateParse` stands for `new Date(x).getTime()`. -/
def createUpdateOperations (fixed : OptionColorMap) (dateParse : String → Int)
    (fieldTypes : List (String × String)) (columnsMap : List (String × String))
    (cellId : String → Option String) (rowId avId : String)
    (fieldsToUpdate : List (String × JsonValue)) (auto : OptionColorMap) :
    List AvOperation × OptionColorMap :=
  match fieldsToUpdate with
  | [] => ([], auto)
  | (fieldName, value) :: rest =>
    match getAssoc columnsMap fieldName with
    | none => createUpdateOperations fixed dateParse fieldTypes columnsMap cellId rowId avId rest auto
    | some keyID =>
      match cellId keyID with
      | none => createUpdateOperations fixed dateParse fieldTypes columnsMap cellId rowId avId rest auto
      | some cellID =>
        let fieldType :=
          match getAssoc fieldTypes fieldName with
          | some t => if t = "" then FieldType.TEXT else t
          | none => FieldType.TEXT
        if fieldType = FieldType.DATE then
          let op := AvOperation.updateAttrViewCellDate cellID avId keyID rowId
            (dateParse (jsonToString value))
          let r := createUpdateOperations fixed dateParse fieldTypes columnsMap cellId rowId avId rest auto
          (op :: r.1, r.2)
        else if fieldType = FieldType.SELECT then
          let o1 := createOptionOperation fixed auto fieldName value keyID avId
          let o2 := createSelectOperation fixed o1.2 fieldName value cellID keyID rowId avId
          let r := createUpdateOperations fixed dateParse fieldTypes columnsMap cellId rowId avId rest o2.2
          (o1.1 :: o2.1 :: r.1, r.2)
        else if fieldType = FieldType.URL then
          let op := AvOperation.updateAttrViewCellURL cellID avId keyID rowId (jsonToString value)
          let r := createUpdateOperations fixed dateParse fieldTypes columnsMap cellId rowId avId rest auto
          (op :: r.1, r.2)
        else
          let op := AvOperation.updateAttrViewCellText cellID avId keyID rowId (jsonToString value)
          let r := createUpdateOperations fixed dateParse fieldTypes columnsMap cellId rowId avId rest auto
          (op :: r.1, r.2)

/-- Model of `DatabaseService.createUpdateTimeOperation`. -/
def createUpdateTimeOperation (rowId : String) (now : Int) : AvOperation :=
  .doUpdateUpdated rowId (toString now)

/-- Model of `DatabaseService.updateDatabaseRow`: resolve the row and database from
the DOM context, build the field operations, and submit them as one
transaction together with a row-updated-timestamp operation; `none` means
the method returned without submitting a transaction. The auto color map
after the call is returned alongside. -/
def updateDatabaseRow (ctx : DomRowContext) (jsEval : JsOracle)
    (dateParse : String → Int) (now : Int) (fixed auto : OptionColorMap)
    (rowId : String) (issueData : JsonValue)
    (fieldMappings fieldTypes : List (String × String)) :
    Option (List AvOperation) × OptionColorMap :=
  if ctx.rowFound = false then (none, auto)
  else
    match ctx.avId with
    | none => (none, auto)
    | some avId =>
      if ctx.columnsMap.length = 0 then (none, auto)
      else
        let fieldsToUpdate := prepareFieldsToUpdate jsEval issueData fieldMappings
        let r := createUpdateOperations fixed dateParse fieldTypes ctx.columnsMap ctx.cellId
          rowId avId fieldsToUpdate auto
        if r.1.length = 0 then (none, r.2)
        else (some (r.1 ++ [createUpdateTimeOperation rowId now]), r.2)

/-- The JS-engine stub that returns `undefined` for every expression. -/
def oracleUndef : JsOracle := fun _ _ => Except.ok none

/-- The JS-engine stub that returns the string `"Open"` for every
expression (what `data.fields.status.name` evaluates to on `c1Issue`). -/
def oracleOpen : JsOracle := fun _ _ => Except.ok (some (JsonValue.str "Open"))

/-- A date parser stub (no date field occurs in the scenario). -/
def c1DateParse : String → Int := fun _ => 0

/-- DOM context of the C1 scenario: the row is found, the database id
resolves, and the row has a column named `状态`. -/
def c1Ctx : DomRowContext :=
  ⟨true, some "av1", [("状态", "col1")],
   fun keyID => if keyID = "col1" then some "cell1" else none⟩

/-- The JIRA issue of the end-to-end scenario. -/
def c1Issue : JsonValue :=
  .obj [("fields", .obj [("status", .obj [("name", .str "Open")])])]

/-- One left-to-right pass implementing JS `String.match` with a `(\d+)u`
pattern: `acc = some n` means the characters just read end in a digit run of
value `n`; the run matches when the next character is the unit `u`, and
scanning resumes otherwise. -/
def scanUnitAux (u : Char) (acc : Option Nat) (cs : List Char) : Option Nat :=
  match cs with
  | [] => none
  | c :: rest =>
    if c.isDigit then
      scanUnitAux u (some ((acc.getD 0) * 10 + (c.toNat - 48))) rest
    else
      match acc with
      | some n => if c = u then some n else scanUnitAux u none rest
      | none => scanUnitAux u none rest

/-- First match of a `(\d+)u` pattern in the characters: the captured
number, or `none` when the pattern does not occur. -/
def scanUnitChars (u : Char) (cs : List Char) : Option Nat :=
  scanUnitAux u none cs

/-- Model of `LarkService.calculateWorkTimeFromTimeSpent`: parse an `"<N>h <M>m"`
style string into decimal hours; an empty string, and a parse yielding 0,
default to 1 hour (`return hours || 1`). -/
def calculateWorkTimeFromTimeSpent (timeSpent : String) : ℚ :=
  if timeSpent = "" then 1
  else
    let hoursMatch := scanUnitChars 'h' timeSpent.data
    let minutesMatch := scanUnitChars 'm' timeSpent.data
    let hours : ℚ :=
      (match hoursMatch with
       | some n => (n : ℚ)
       | none => 0) +
      (match minutesMatch with
       | some n => (n : ℚ) / 60
       | none => 0)
    if hours = 0 then 1 else hours

/-- Consume an optional `(\d+)u` group at the front of the characters:
if a non-empty digit run immediately followed by `u` starts the list it is
consumed, otherwise the optional group matches the empty string. -/
def consumeUnit (u : Char) (cs : List Char) : List Char :=
  match cs.takeWhile Char.isDigit, cs.dropWhile Char.isDigit with
  | _ :: _, c :: rest2 => if c = u then rest2 else cs
  | _, _ => cs

/-- Model of `/^(\d+h)?\s*(\d+m)?$/.test(s)`: optional hours group, optional
whitespace, optional minutes group, end of string. -/
def timeSpentPatternTest (s : String) : Bool :=
  let cs1 := consumeUnit 'h' s.data
  let cs2 := cs1.dropWhile Char.isWhitespace
  let cs3 := consumeUnit 'm' cs2
  cs3.isEmpty

/-- A time entry (`TimeEntry` in `src/services/larkWorkLogService.ts`);
only the fields inspected by `validateTimeEntry` plus the other mandatory
ones are carried. -/
structure TimeEntry where
  id : String
  startTime : String
  endTime : String
  description : String
  timeSpent : String
  nodeId : String
  nodeName : String
deriving Repr, DecidableEq

/-- Model of `validateTimeEntry`: throw when the start time is falsy, when the
trimmed duration fails `/^(\d+h)?\s*(\d+m)?$/`, or when the description is
falsy or trims to nothing. -/
def validateTimeEntry (entry : TimeEntry) : Except String Unit :=
  if entry.startTime = "" then .error "开始时间不能为空"
  else if timeSpentPatternTest (strTrim entry.timeSpent) = false then .error "工时格式无效"
  else if entry.description = "" ∨ (strTrim entry.description).data.length = 0 then
    .error "工作描述不能为空"
  else .ok ()

/-! ## Association-list lemmas -/

theorem getAssoc_setAssoc_self {α : Type} (m : List (String × α)) (k : String) (v : α) :
    getAssoc (setAssoc m k v) k = some v := by
  induction m with
  | nil => simp [setAssoc, getAssoc]
  | cons p rest ih =>
    obtain ⟨k2, v2⟩ := p
    by_cases h : k2 = k
    · simp [setAssoc, h, getAssoc]
    · simp [setAssoc, h, getAssoc, ih]

theorem getAssoc_setAssoc_ne {α : Type} (m : List (String × α)) (k k2 : String) (v : α)
    (h : k2 ≠ k) : getAssoc (setAssoc m k v) k2 = getAssoc m k2 := by
  induction m with
  | nil => simp [setAssoc, getAssoc, Ne.symm h]
  | cons p rest ih =>
    obtain ⟨k3, v3⟩ := p
    by_cases h3 : k3 = k
    · subst h3
      simp [setAssoc, getAssoc, Ne.symm h]
    · by_cases h2 : k3 = k2 <;> simp [setAssoc, getAssoc, h3, h2, h, ih]

theorem mapDelete_cons {α : Type} (p : String × α) (rest : List (String × α)) (k : String) :
    mapDelete (p :: rest) k =
      if p.1 = k then mapDelete rest k else p :: mapDelete rest k := by
  by_cases h : p.1 = k <;> simp [mapDelete, List.filter_cons, h]

theorem getAssoc_mapDelete_self {α : Type} (m : List (String × α)) (k : String) :
    getAssoc (mapDelete m k) k = none := by
  induction m with
  | nil => simp [mapDelete, getAssoc]
  | cons p rest ih =>
    obtain ⟨k2, v2⟩ := p
    rw [mapDelete_cons]
    by_cases h : k2 = k <;> simp [getAssoc, h, ih]

theorem getAssoc_mapDelete_ne {α : Type} (m : List (String × α)) (k k2 : String)
    (h : k2 ≠ k) : getAssoc (mapDelete m k) k2 = getAssoc m k2 := by
  induction m with
  | nil => simp [mapDelete, getAssoc]
  | cons p rest ih =>
    obtain ⟨k3, v3⟩ := p
    rw [mapDelete_cons]
    by_cases h3 : k3 = k
    · subst h3
      simp [getAssoc, Ne.symm h, ih]
    · by_cases h2 : k3 = k2 <;> simp [getAssoc, h3, h2, h, ih]

theorem mem_keys_mapDelete {α : Type} (m : List (String × α)) (k k2 : String) :
    k2 ∈ (mapDelete m k).map Prod.fst ↔ k2 ∈ m.map Prod.fst ∧ k2 ≠ k := by
  simp only [mapDelete, List.mem_map, List.mem_filter]
  constructor
  · rintro ⟨p, ⟨hp, hne⟩, rfl⟩
    exact ⟨⟨p, hp, rfl⟩, by simpa using hne⟩
  · rintro ⟨⟨p, hp, rfl⟩, hne⟩
    exact ⟨p, ⟨hp, by simpa using hne⟩, rfl⟩

theorem nodup_keys_mapDelete {α : Type} (m : List (String × α)) (k : String)
    (h : (m.map Prod.fst).Nodup) : ((mapDelete m k).map Prod.fst).Nodup := by
  induction m with
  | nil => simp [mapDelete]
  | cons p rest ih =>
    simp only [List.map_cons, List.nodup_cons] at h
    by_cases hk : p.1 = k
    · have heq : mapDelete (p :: rest) k = mapDelete rest k := by
        simp [mapDelete, List.filter_cons, hk]
      rw [heq]
      exact ih h.2
    · have heq : mapDelete (p :: rest) k = p :: mapDelete rest k := by
        simp [mapDelete, List.filter_cons, hk]
      rw [heq]
      simp only [List.map_cons, List.nodup_cons]
      refine ⟨fun hmem => ?_, ih h.2⟩
      exact h.1 ((mem_keys_mapDelete rest k p.1).mp hmem).1

theorem getAssoc_isSome_iff {α : Type} (m : List (String × α)) (k : String) :
    (getAssoc m k).isSome = true ↔ k ∈ m.map Prod.fst := by
  induction m with
  | nil => simp [getAssoc]
  | cons p rest ih =>
    obtain ⟨k2, v2⟩ := p
    by_cases h : k2 = k
    · simp [getAssoc, h]
    · simp [getAssoc, h, ih, Ne.symm h]

theorem getAssoc_eq_none_iff {α : Type} (m : List (String × α)) (k : String) :
    getAssoc m k = none ↔ k ∉ m.map Prod.fst := by
  rw [← getAssoc_isSome_iff]
  cases getAssoc m k <;> simp

theorem setAssoc_of_not_mem {α : Type} (m : List (String × α)) (k : String) (v : α)
    (h : k ∉ m.map Prod.fst) : setAssoc m k v = m ++ [(k, v)] := by
  induction m with
  | nil => simp [setAssoc]
  | cons p rest ih =>
    obtain ⟨k2, v2⟩ := p
    simp only [List.map_cons, List.mem_cons, not_or] at h
    have h1 : k2 ≠ k := fun hh => h.1 hh.symm
    simp [setAssoc, h1, ih h.2]

theorem keys_setAssoc_of_mem {α : Type} (m : List (String × α)) (k : String) (v : α)
    (h : k ∈ m.map Prod.fst) : (setAssoc m k v).map Prod.fst = m.map Prod.fst := by
  induction m with
  | nil => simp at h
  | cons p rest ih =>
    obtain ⟨k2, v2⟩ := p
    by_cases hk : k2 = k
    · simp [setAssoc, hk]
    · simp only [List.map_cons, List.mem_cons] at h
      rcases h with h | h
    
      · exact absurd h.symm hk
      · simp [setAssoc, hk, ih h]

theorem mem_keys_setAssoc {α : Type} (m : List (String × α)) (k k2 : String) (v : α) :
    k2 ∈ (setAssoc m k v).map Prod.fst ↔ k2 ∈ m.map Prod.fst ∨ k2 = k := by
  by_cases h : k ∈ m.map Prod.fst
  · rw [keys_setAssoc_of_mem m k v h]
    constructor
    · exact Or.inl
    · rintro (hm | rfl)
      · exact hm
      · exact h
  · rw [setAssoc_of_not_mem m k v h]
    simp

theorem nodup_keys_setAssoc {α : Type} (m : List (String × α)) (k : String) (v : α)
    (h : (m.map Prod.fst).Nodup) : ((setAssoc m k v).map Prod.fst).Nodup := by
  by_cases hk : k ∈ m.map Prod.fst
  · rw [keys_setAssoc_of_mem m k v hk]; exact h
  · rw [setAssoc_of_not_mem m k v hk]
    simp only [List.map_append, List.map_cons, List.map_nil]
    rw [List.nodup_append]
    refine ⟨h, List.nodup_singleton _, ?_⟩
    intro a ha hha
    simp only [List.mem_singleton] at hha
    exact hk (hha ▸ ha)

/-! ## String and trim helpers -/

theorem descFalsy_iff (d : String) :
    (d = "" ∨ (strTrim d).data.length = 0) ↔ strTrim d = "" := by
  constructor
  · rintro (rfl | h)
    · rfl
    · have h2 : (strTrim d).data = [] := List.length_eq_zero.mp h
      exact String.ext (by simpa using h2)
  · intro h
    right
    rw [h]
    rfl

/-- C10: `validateTimeEntry` throws exactly when the start time is empty, the
trimmed `timeSpent` fails `/^(\d+h)?\s*(\d+m)?$/`, or the description is
empty or whitespace-only; in particular an entry with a non-empty start
time, a non-blank description and an empty `timeSpent` passes. -/
theorem validateTimeEntry_spec (e : TimeEntry) :
    ((validateTimeEntry e = Except.ok ()) ↔
      (e.startTime ≠ "" ∧ timeSpentPatternTest (strTrim e.timeSpent) = true ∧
        strTrim e.description ≠ "")) ∧
    (e.startTime ≠ "" → strTrim e.description ≠ "" → e.timeSpent = "" →
      validateTimeEntry e = Except.ok ()) := by
  constructor
  · unfold validateTimeEntry
    split_ifs with h1 h2 h3
    · simp [h1]
    · simp only [Bool.not_eq_false] at h2
      simp [h2]
    · rw [descFalsy_iff] at h3
      simp [h3]
    · rw [descFalsy_iff] at h3
      simp only [Bool.not_eq_false] at h2
      simp [h1, h2, h3]
  · intro h1 h3 hts
    unfold validateTimeEntry
    rw [if_neg h1, hts]
    have hpat : timeSpentPatternTest (strTrim "") = true := rfl
    rw [hpat]
    rw [if_neg (by simp)]
    rw [if_neg (by rw [descFalsy_iff]; exact h3)]

/-- Witness for `validateTimeEntry_spec` at a concrete entry. -/
theorem validateTimeEntry_spec_witness :
    validateTimeEntry ⟨"id1", "2024-01-01T09:00", "", "worked on it", "", "node", "n"⟩ =
      Except.ok () :=
  (validateTimeEntry_spec ⟨"id1", "2024-01-01T09:00", "", "worked on it", "", "node", "n"⟩).2
    (by decide) (by decide) rfl

/-- C2: `PathHelper.getValueByPath` is total (it returns an `Option`, never
propagating an error); every non-`js:` path yields `undefined`; a `js:`
expression containing a denylisted substring yields `undefined`; and a `js:`
expression whose evaluation throws yields `undefined`. -/
theorem getValueByPath_spec (jsEval : JsOracle) (obj : JsonValue) (path : String) :
    (strStartsWith path "js:" = false → getValueByPath jsEval obj path = none) ∧
    (∀ bad ∈ jsDenylist, strIncludes (strTrim (strDrop path 3)) bad = true →
      getValueByPath jsEval obj path = none) ∧
    (∀ msg, jsEval (strTrim (strDrop path 3)) obj = Except.error msg →
      getValueByPath jsEval obj path = none) := by
  refine ⟨?_, ?_, ?_⟩
  · intro h
    unfold getValueByPath
    simp [h]
  · intro bad hmem hinc
    unfold getValueByPath
    by_cases hs : strStartsWith path "js:" = true
    · have hany : jsDenylist.any (fun b => strIncludes (strTrim (strDrop path 3)) b) = true :=
        List.any_eq_true.mpr ⟨bad, hmem, hinc⟩
      simp only [hs, if_true]
      unfold evaluateJsExpression
      simp [hany]
    · simp [hs]
  · intro msg herr
    unfold getValueByPath
    by_cases hs : strStartsWith path "js:" = true
    · simp only [hs, if_true]
      unfold evaluateJsExpression
      by_cases hd : jsDenylist.any (fun b => strIncludes (strTrim (strDrop path 3)) b) = true
      · simp [hd]
      · simp [hd, herr]
    · simp [hs]

/-- Witness for `getValueByPath_spec`: the plain dot-path of the settings
example resolves to `undefined`. -/
theorem getValueByPath_spec_witness :
    getValueByPath oracleOpen c1Issue "fields.status.name" = none :=
  (getValueByPath_spec oracleOpen c1Issue "fields.status.name").1 (by decide)

/-- C8: `getLarkToken` returns the cached token with no network call iff a
cached (truthy) token exists with `expireTime` strictly after the current
time; otherwise it refreshes, persists a cache entry whose expiry is
`now + expire_time * 1000 - 60000`, and returns the fresh token. -/
theorem getLarkToken_spec (cache : Option LarkTokenCache) (now : Int)
    (resp : Option PluginTokenResponse) :
    ((∃ tc, cache = some tc ∧ tc.token ≠ "" ∧ now < tc.expireTime) →
      ∃ tc, cache = some tc ∧ getLarkToken cache now resp = .ok ⟨tc.token, some tc, false⟩) ∧
    (∀ r, resp = some r → r.token ≠ "" →
      (¬ ∃ tc, cache = some tc ∧ tc.token ≠ "" ∧ now < tc.expireTime) →
      getLarkToken cache now resp =
        .ok ⟨r.token, some ⟨r.token, now + r.expire_time * 1000 - 60 * 1000⟩, true⟩) ∧
    (∀ res, getLarkToken cache now resp = .ok res →
      (res.networkUsed = false ↔ ∃ tc, cache = some tc ∧ tc.token ≠ "" ∧ now < tc.expireTime)) := by
  refine ⟨?_, ?_, ?_⟩
  · rintro ⟨tc, rfl, hcond⟩
    exact ⟨tc, rfl, by simp [getLarkToken, hcond]⟩
  · rintro r rfl hr hmiss
    cases cache with
    | none => simp [getLarkToken, refreshLarkToken, hr]
    | some tc =>
      have hcond : ¬(tc.token ≠ "" ∧ now < tc.expireTime) := fun hc => hmiss ⟨tc, rfl, hc⟩
      simp only [getLarkToken, if_neg hcond]
      simp [refreshLarkToken, hr]
  · intro res hok
    cases cache with
    | none =>
      have hnet : res.networkUsed = true := by
        cases resp with
        | none => simp [getLarkToken, refreshLarkToken] at hok
        | some r =>
          by_cases hr : r.token = ""
          · simp [getLarkToken, refreshLarkToken, hr] at hok
          · simp only [getLarkToken, refreshLarkToken, if_neg hr, Except.ok.injEq] at hok
            rw [← hok]
      simp [hnet]
    | some tc =>
      by_cases hcond : tc.token ≠ "" ∧ now < tc.expireTime
      · have : res = ⟨tc.token, some tc, false⟩ := by
          simpa [getLarkToken, hcond] using hok.symm
        subst this
        simp only [true_iff]
        exact ⟨tc, rfl, hcond⟩
      · have hnet : res.networkUsed = true := by
        
        
          rw [getLarkToken, if_neg hcond] at hok
          cases resp with
          | none => simp [refreshLarkToken] at hok
          | some r =>
            by_cases hr : r.token = ""
            · simp [refreshLarkToken, hr] at hok
            · simp only [refreshLarkToken, if_neg hr, Except.ok.injEq] at hok
              rw [← hok]
      
        rw [hnet]
        simp only [Bool.true_eq_false, false_iff]
        rintro ⟨tc2, heq, hc2⟩
        rw [Option.some.injEq] at heq
        exact hcond (heq ▸ hc2)

/-- Witness for `getLarkToken_spec`: a cold cache triggers the exchange and
stores the 60-second safety margin. -/
theorem getLarkToken_spec_witness :
    getLarkToken none 1000 (some ⟨"tok", 7200⟩) =
      .ok ⟨"tok", some ⟨"tok", 1000 + 7200 * 1000 - 60 * 1000⟩, true⟩ :=
  (getLarkToken_spec none 1000 (some ⟨"tok", 7200⟩)).2.1 ⟨"tok", 7200⟩ rfl (by decide)
    (by rintro ⟨tc, htc, h⟩; cases htc)

/-- C7: `calculateWorkTimeFromTimeSpent` converts `"<N>h <M>m"` strings to
decimal hours: `"1h 30m"` is 1.5, `"2h"` is 2, `"45m"` is 0.75, the empty or
unparsable string defaults to 1, and a missing unit contributes 0 (so a
string with only a minutes match evaluates to `m/60`, and one with only an
hours match to `h`, the zero-valued parses falling back to the default). -/
theorem calculateWorkTime_spec :
    calculateWorkTimeFromTimeSpent "1h 30m" = 3/2 ∧
    calculateWorkTimeFromTimeSpent "2h" = 2 ∧
    calculateWorkTimeFromTimeSpent "45m" = 3/4 ∧
    calculateWorkTimeFromTimeSpent "" = 1 ∧
    (∀ s : String, scanUnitChars 'h' s.data = none → scanUnitChars 'm' s.data = none →
      calculateWorkTimeFromTimeSpent s = 1) ∧
    (∀ (s : String) (n : Nat), scanUnitChars 'h' s.data = none →
      scanUnitChars 'm' s.data = some n →
      calculateWorkTimeFromTimeSpent s = if n = 0 then 1 else (n : ℚ) / 60) ∧
    (∀ (s : String) (n : Nat), scanUnitChars 'm' s.data = none →
      scanUnitChars 'h' s.data = some n →
      calculateWorkTimeFromTimeSpent s = if n = 0 then 1 else (n : ℚ)) := by
  refine ⟨?_, ?_, ?_, ?_, ?_, ?_, ?_⟩
  · have hh : scanUnitChars 'h' "1h 30m".data = some 1 := rfl
    have hm : scanUnitChars 'm' "1h 30m".data = some 30 := rfl
    simp only [calculateWorkTimeFromTimeSpent, hh, hm,
      if_neg (show ¬("1h 30m" : String) = "" by decide)]
    norm_num
  · have hh : scanUnitChars 'h' "2h".data = some 2 := rfl
    have hm : scanUnitChars 'm' "2h".data = none := rfl
    simp only [calculateWorkTimeFromTimeSpent, hh, hm,
      if_neg (show ¬("2h" : String) = "" by decide)]
    norm_num
  · have hh : scanUnitChars 'h' "45m".data = none := rfl
    have hm : scanUnitChars 'm' "45m".data = some 45 := rfl
    simp only [calculateWorkTimeFromTimeSpent, hh, hm,
      if_neg (show ¬("45m" : String) = "" by decide)]
    norm_num
  · rfl
  · intro s hh hm
    by_cases hs : s = ""
    · rw [hs]; rfl
    · simp only [calculateWorkTimeFromTimeSpent, hh, hm, if_neg hs]
      norm_num
  · intro s n hh hm
    by_cases hs : s = ""
    · rw [hs] at hm
      have h0 : scanUnitChars 'm' ("" : String).data = none := rfl
      rw [h0] at hm
      cases hm
    · simp only [calculateWorkTimeFromTimeSpent, hh, hm, if_neg hs]
      by_cases hn : n = 0
      · rw [hn]
        norm_num
      · have hnz : (0 + (n : ℚ) / 60) ≠ 0 := by
          rw [zero_add]
          exact div_ne_zero (Nat.cast_ne_zero.mpr hn) (by norm_num)
        rw [if_neg hnz, if_neg hn, zero_add]
  · intro s n hm hh
    by_cases hs : s = ""
    · rw [hs] at hh
      have h0 : scanUnitChars 'h' ("" : String).data = none := rfl
      rw [h0] at hh
      cases hh
    · simp only [calculateWorkTimeFromTimeSpent, hh, hm, if_neg hs]
      by_cases hn : n = 0
      · rw [hn]
        norm_num
      · have hnz : ((n : ℚ) + 0) ≠ 0 := by
          rw [add_zero]
          exact Nat.cast_ne_zero.mpr hn
        rw [if_neg hnz, if_neg hn, add_zero]

/-- Witness for `calculateWorkTime_spec`: the minutes-only branch at a
concrete unparsable and a concrete minutes-only string. -/
theorem calculateWorkTime_spec_witness :
    calculateWorkTimeFromTimeSpent "abc" = 1 ∧
    calculateWorkTimeFromTimeSpent "90m" = (90 : ℚ) / 60 := by
  constructor
  · exact calculateWorkTime_spec.2.2.2.2.1 "abc" rfl rfl
  · have h := calculateWorkTime_spec.2.2.2.2.2.1 "90m" 90 rfl rfl
    rw [h, if_neg (by decide)]
    norm_num

/-- C1: evaluating `updateDatabaseRow` on the end-to-end scenario — issue
`{fields:{status:{name:"Open"}}}`, mapping `状态 -> fields.status.name`
declared `select`, and a row carrying a `状态` column. Because
`getValueByPath` implements only the `js:` branch, the plain dot-path
resolves to `undefined`, zero field operations result, and no transaction
is submitted — not the three operations the specification promises. The
same scenario with the mapping written as a `js:` expression does produce
exactly the three promised operations. -/
theorem updateDatabaseRow_c1_scenario :
    (updateDatabaseRow c1Ctx oracleOpen c1DateParse 0 [] [] "row1" c1Issue
        [("状态", "fields.status.name")] [("状态", "select")]).1 = none ∧
    (updateDatabaseRow c1Ctx oracleOpen c1DateParse 0 [] [] "row1" c1Issue
        [("状态", "js:data.fields.status.name")] [("状态", "select")]).1 =
      some [AvOperation.updateAttrViewColOptions "col1" "av1" [⟨"1", "Open"⟩],
            AvOperation.updateAttrViewCellSelect "cell1" "av1" "col1" "row1" "1" "Open",
            AvOperation.doUpdateUpdated "row1" "0"] := by
  decide

set_option maxRecDepth 100000 in
/-- C9 counterexample: after 101 `setWorkItemCache` calls whose first key is
the empty string, the key-list/map invariant is broken — `""` is still a key
of `workItemCache` but no longer occurs in `workItemCacheKeys`, because
`evictCache` guards the map delete behind a truthiness check. -/
theorem cacheInvariant_cex :
    ("" ∈ cacheKeysOf c9CexState) ∧ ("" ∉ c9CexState.workItemCacheKeys) := by
  decide

set_option maxRecDepth 100000 in
/-- C4 counterexample: inserting the 101 distinct `lruCexKeys` (first key
`""`) leaves the first-inserted key still present — a subsequent
`getWorkItemCache` returns it — and the map holds 101 entries, exceeding
the capacity of 100. -/
theorem lruEviction_cex :
    (getWorkItemCache c4CexState "" 0).1.isSome = true ∧
    c4CexState.workItemCache.length = 101 := by
  decide

set_option maxRecDepth 100000 in
/-- C5 counterexample: start from a full cache containing `""`, touch `""`
with a successful `getWorkItemCache`, then insert 100 distinct fresh keys.
After 99 inserts `""` is the head of the LRU order, yet the 100th insert
fails to evict it: its entry survives in the map. -/
theorem lruTouch_cex :
    c5CexAfter99.workItemCacheKeys.head? = some "" ∧
    (getAssoc c5CexFinal.workItemCache "").isSome = true := by
  decide

/-! ## Cache well-formedness machinery -/

theorem cacheKeysOf_mk (m : List (String × WorkItemIdCache)) (kl : List String) :
    cacheKeysOf ⟨m, kl⟩ = m.map Prod.fst := rfl

theorem evictCache_keys (s : CacheState) :
    (evictCache s).workItemCacheKeys = s.workItemCacheKeys.tail := by
  obtain ⟨m, keys⟩ := s
  cases keys with
  | nil => rfl
  | cons h rest => by_cases hh : h ≠ "" <;> simp [evictCache, hh]

theorem cacheWF_empty : CacheWF emptyCacheState := by
  refine ⟨?_, ?_, ?_, ?_, ?_, ?_⟩ <;> simp [emptyCacheState, cacheKeysOf, MAX_CACHE_SIZE]

theorem cacheWF_get (s : CacheState) (k : String) (now : Int) (hwf : CacheWF s) :
    CacheWF (getWorkItemCache s k now).2 := by
  obtain ⟨hnd, hndm, hsub1, hsub2, hcap, hne⟩ := hwf
  cases hga : getAssoc s.workItemCache k with
  | none =>
    simp only [getWorkItemCache, hga]
    exact ⟨hnd, hndm, hsub1, hsub2, hcap, hne⟩
  | some c =>
    have hkmap : k ∈ cacheKeysOf s :=
      (getAssoc_isSome_iff s.workItemCache k).mp (by rw [hga]; rfl)
    have hkmem : k ∈ s.workItemCacheKeys := hsub2 k hkmap
    by_cases hlt : now < c.expireTime
    · simp only [getWorkItemCache, hga, if_pos hlt]
      refine ⟨?_, hndm, ?_, ?_, ?_, ?_⟩
      · rw [updateCacheUsage, List.nodup_append]
        refine ⟨hnd.erase k, List.nodup_singleton k, ?_⟩
        intro a ha hb
        simp only [List.mem_singleton] at hb
        subst hb
        exact hnd.not_mem_erase ha
      · intro a ha
        rw [updateCacheUsage, List.mem_append] at ha
        rcases ha with ha | ha
        · exact hsub1 a (List.mem_of_mem_erase ha)
        · simp only [List.mem_singleton] at ha
          subst ha
          exact hkmap
      · intro a ha
        rw [updateCacheUsage, List.mem_append]
        by_cases hak : a = k
        · right; simp [hak]
        · left
          exact (hnd.mem_erase_iff).mpr ⟨hak, hsub2 a ha⟩
      · rw [updateCacheUsage, List.length_append, List.length_erase_of_mem hkmem]
        have hpos := List.length_pos_of_mem hkmem
        simp only [MAX_CACHE_SIZE] at hcap ⊢
        simp only [List.length_singleton]
        omega
      · intro a ha
        rw [updateCacheUsage, List.mem_append] at ha
        rcases ha with ha | ha
        · exact hne a (List.mem_of_mem_erase ha)
        · simp only [List.mem_singleton] at ha
          rw [ha]
          exact hne k hkmem
    · simp only [getWorkItemCache, hga, if_neg hlt]
      refine ⟨hnd.erase k, ?_, ?_, ?_, ?_, ?_⟩
      · exact nodup_keys_mapDelete s.workItemCache k hndm
      · intro a ha
        have h2 := (hnd.mem_erase_iff).mp ha
        exact (mem_keys_mapDelete s.workItemCache k a).mpr ⟨hsub1 a h2.2, h2.1⟩
      · intro a ha
        have h2 := (mem_keys_mapDelete s.workItemCache k a).mp ha
        exact (hnd.mem_erase_iff).mpr ⟨h2.2, hsub2 a h2.1⟩
      · exact le_trans (List.Sublist.length_le (List.erase_sublist k s.workItemCacheKeys)) hcap
      · intro a ha
        exact hne a (List.mem_of_mem_erase ha)

theorem cacheWF_evict (s : CacheState) (hwf : CacheWF s) : CacheWF (evictCache s) := by
  obtain ⟨m, keys⟩ := s
  obtain ⟨hnd, hndm, hsub1, hsub2, hcap, hne⟩ := hwf
  simp only [cacheKeysOf_mk] at hndm hsub1 hsub2
  cases keys with
  | nil => exact ⟨hnd, hndm, hsub1, hsub2, hcap, hne⟩
  | cons h rest =>
    have hh : h ≠ "" := hne h (List.mem_cons_self h rest)
    show CacheWF (if h ≠ "" then ⟨mapDelete m h, rest⟩ else ⟨m, rest⟩)
    rw [if_pos hh]
    have hndr : rest.Nodup := (List.nodup_cons.mp hnd).2
    have hhnr : h ∉ rest := (List.nodup_cons.mp hnd).1
    refine ⟨hndr, ?_, ?_, ?_, ?_, ?_⟩
    · exact nodup_keys_mapDelete m h hndm
    · intro a ha
      have hanh : a ≠ h := fun he => hhnr (he ▸ ha)
      exact (mem_keys_mapDelete m h a).mpr ⟨hsub1 a (List.mem_cons_of_mem h ha), hanh⟩
    · intro a ha
      have h2 := (mem_keys_mapDelete m h a).mp ha
      have h3 := hsub2 a h2.1
      rcases List.mem_cons.mp h3 with he | hm
      · exact absurd he h2.2
      · exact hm
    · calc rest.length ≤ rest.length + 1 := Nat.le_succ _
        _ = (h :: rest).length := by simp
        _ ≤ MAX_CACHE_SIZE := hcap
    · intro a ha
      exact hne a (List.mem_cons_of_mem h ha)

theorem cacheWF_setCore (s1 : CacheState) (k tid eid : String) (ttl now : Int)
    (hwf1 : CacheWF s1) (hk : k ≠ "")
    (hspare : k ∈ s1.workItemCacheKeys ∨ s1.workItemCacheKeys.length < MAX_CACHE_SIZE) :
    CacheWF ⟨setAssoc s1.workItemCache k ⟨k, tid, eid, now + ttl⟩,
             s1.workItemCacheKeys.erase k ++ [k]⟩ := by
  obtain ⟨hnd, hndm, hsub1, hsub2, hcap, hne⟩ := hwf1
  have hnotin : k ∉ s1.workItemCacheKeys.erase k := by
    by_cases hm : k ∈ s1.workItemCacheKeys
    · exact hnd.not_mem_erase
    · rw [List.erase_of_not_mem hm]
      exact hm
  refine ⟨?_, ?_, ?_, ?_, ?_, ?_⟩
  · rw [List.nodup_append]
    refine ⟨hnd.erase k, List.nodup_singleton k, ?_⟩
    intro a ha hb
    simp only [List.mem_singleton] at hb
    exact hnotin (hb ▸ ha)
  · exact nodup_keys_setAssoc s1.workItemCache k _ hndm
  · intro a ha
    rw [cacheKeysOf_mk, mem_keys_setAssoc]
    rw [List.mem_append] at ha
    rcases ha with ha | ha
    · exact Or.inl (hsub1 a (List.mem_of_mem_erase ha))
    · simp only [List.mem_singleton] at ha
      exact Or.inr ha
  · intro a ha
    rw [cacheKeysOf_mk, mem_keys_setAssoc] at ha
    rw [List.mem_append]
    rcases ha with ha | ha
    · by_cases hak : a = k
      · right; simp [hak]
      · left
        exact (hnd.mem_erase_iff).mpr ⟨hak, hsub2 a ha⟩
    · right; simp [ha]
  · rw [List.length_append, List.length_singleton]
    by_cases hm : k ∈ s1.workItemCacheKeys
    · rw [List.length_erase_of_mem hm]
      have hpos := List.length_pos_of_mem hm
      omega
    · rw [List.erase_of_not_mem hm]
      rcases hspare with hs | hs
      · exact absurd hs hm
      · omega
  · intro a ha
    rw [List.mem_append] at ha
    rcases ha with ha | ha
    · exact hne a (List.mem_of_mem_erase ha)
    · simp only [List.mem_singleton] at ha
      rw [ha]
      exact hk

theorem cacheWF_set (s : CacheState) (k tid eid : String) (ttl now : Int)
    (hwf : CacheWF s) (hk : k ≠ "") :
    CacheWF (setWorkItemCache s k tid eid ttl now) := by
  by_cases hcond : (getAssoc s.workItemCache k).isNone = true ∧
      MAX_CACHE_SIZE ≤ s.workItemCacheKeys.length
  · have hev : setWorkItemCache s k tid eid ttl now =
        ⟨setAssoc (evictCache s).workItemCache k ⟨k, tid, eid, now + ttl⟩,
         (evictCache s).workItemCacheKeys.erase k ++ [k]⟩ := by
      simp only [setWorkItemCache, if_pos hcond]
      rfl
    rw [hev]
    refine cacheWF_setCore (evictCache s) k tid eid ttl now (cacheWF_evict s hwf) hk ?_
    right
    rw [evictCache_keys, List.length_tail]
    obtain ⟨-, -, -, -, hcap, -⟩ := hwf
    have hge := hcond.2
    simp only [MAX_CACHE_SIZE] at hcap hge ⊢
    omega
  · have hev : setWorkItemCache s k tid eid ttl now =
        ⟨setAssoc s.workItemCache k ⟨k, tid, eid, now + ttl⟩,
         s.workItemCacheKeys.erase k ++ [k]⟩ := by
      simp only [setWorkItemCache, if_neg hcond]
      rfl
    rw [hev]
    refine cacheWF_setCore s k tid eid ttl now hwf hk ?_
    by_cases hmem : k ∈ cacheKeysOf s
    · obtain ⟨-, -, -, hsub2, -, -⟩ := hwf
      exact Or.inl (hsub2 k hmem)
    · right
      have hfresh : (getAssoc s.workItemCache k).isNone = true := by
        rw [Option.isNone_iff_eq_none, getAssoc_eq_none_iff]
        exact hmem
      rcases Nat.lt_or_ge s.workItemCacheKeys.length MAX_CACHE_SIZE with hlt | hge
      · exact hlt
      · exact absurd ⟨hfresh, hge⟩ hcond

theorem cacheWF_clear (s : CacheState) (issueKey : Option String) (hwf : CacheWF s) :
    CacheWF (clearWorkItemCache s issueKey) := by
  obtain ⟨hnd, hndm, hsub1, hsub2, hcap, hne⟩ := hwf
  cases issueKey with
  | none => exact cacheWF_empty
  | some k =>
    by_cases hk : k ≠ ""
    · have hcl : clearWorkItemCache s (some k) =
          ⟨mapDelete s.workItemCache k, s.workItemCacheKeys.erase k⟩ := by
        simp only [clearWorkItemCache, if_pos hk]
      rw [hcl]
      refine ⟨hnd.erase k, nodup_keys_mapDelete _ _ hndm, ?_, ?_, ?_, ?_⟩
      · intro a ha
        have h2 := (hnd.mem_erase_iff).mp ha
        exact (mem_keys_mapDelete _ _ _).mpr ⟨hsub1 a h2.2, h2.1⟩
      · intro a ha
        have h2 := (mem_keys_mapDelete _ _ _).mp ha
        exact (hnd.mem_erase_iff).mpr ⟨h2.2, hsub2 a h2.1⟩
      · exact le_trans (List.Sublist.length_le (List.erase_sublist k s.workItemCacheKeys)) hcap
      · intro a ha
        exact hne a (List.mem_of_mem_erase ha)
    · have hcl : clearWorkItemCache s (some k) = ⟨[], []⟩ := by
        simp only [clearWorkItemCache, if_neg hk]
      rw [hcl]
      exact cacheWF_empty

theorem cacheWF_run (ops : List CacheOp) (s : CacheState) (hwf : CacheWF s)
    (hops : ∀ op ∈ ops, cacheOpKeyNonempty op = true) :
    CacheWF (ops.foldl applyCacheOp s) := by
  induction ops generalizing s with
  | nil => exact hwf
  | cons op rest ih =>
    rw [List.foldl_cons]
    refine ih (applyCacheOp s op) ?_ (fun o ho => hops o (List.mem_cons_of_mem op ho))
    cases op with
    | set k t e ttl now =>
      have hk := hops _ (List.mem_cons_self _ _)
      simp only [cacheOpKeyNonempty, decide_eq_true_eq] at hk
      exact cacheWF_set s k t e ttl now hwf hk
    | get k now => exact cacheWF_get s k now hwf
    | clear k => exact cacheWF_clear s k hwf

/-- C9 (amended): after any sequence of cache calls from the empty cache in
which every `set` uses a non-empty key, the LRU key list has no duplicates,
its elements are exactly the keys of the entry map, and its length equals
the number of cached entries. (The un-amended claim fails when a `set` key
is `""`: see the counterexample.) -/
theorem cacheInvariant_spec (ops : List CacheOp)
    (hops : ∀ op ∈ ops, cacheOpKeyNonempty op = true) :
    (runCacheOps ops).workItemCacheKeys.Nodup ∧
    (∀ k, k ∈ (runCacheOps ops).workItemCacheKeys ↔ k ∈ cacheKeysOf (runCacheOps ops)) ∧
    (runCacheOps ops).workItemCacheKeys.length = (runCacheOps ops).workItemCache.length := by
  have hwf := cacheWF_run ops emptyCacheState cacheWF_empty hops
  obtain ⟨hnd, hndm, hsub1, hsub2, hcap, hne⟩ := hwf
  refine ⟨hnd, fun k => ⟨hsub1 k, hsub2 k⟩, ?_⟩
  have hperm : (runCacheOps ops).workItemCacheKeys.Perm (cacheKeysOf (runCacheOps ops)) :=
    (List.perm_ext_iff_of_nodup hnd hndm).mpr (fun a => ⟨hsub1 a, hsub2 a⟩)
  have hlen := hperm.length_eq
  rw [hlen]
  simp [cacheKeysOf]

/-- Witness for `cacheInvariant_spec` on a short concrete call sequence. -/
theorem cacheInvariant_spec_witness :
    (runCacheOps [.set "a" "t" "e" 10 0, .get "a" 5]).workItemCacheKeys.length =
      (runCacheOps [.set "a" "t" "e" 10 0, .get "a" 5]).workItemCache.length :=
  (cacheInvariant_spec [.set "a" "t" "e" 10 0, .get "a" 5] (by decide)).2.2

/-! ## Insertion shape lemmas -/

theorem keys_mapOfKeys (ks : List String) (tid eid : String) (exp : Int) :
    (mapOfKeys ks tid eid exp).map Prod.fst = ks := by
  induction ks with
  | nil => rfl
  | cons k ks ih =>
    simp only [mapOfKeys, List.map_cons] at ih ⊢
    rw [ih]

theorem mapDelete_of_not_mem {α : Type} (m : List (String × α)) (k : String)
    (h : k ∉ m.map Prod.fst) : mapDelete m k = m := by
  rw [mapDelete, List.filter_eq_self]
  intro p hp
  simp only [decide_eq_true_eq]
  exact fun he => h (he ▸ List.mem_map_of_mem Prod.fst hp)

theorem setWorkItemCache_spare (s : CacheState) (k tid eid : String) (ttl now : Int)
    (hlen : s.workItemCacheKeys.length < MAX_CACHE_SIZE)
    (hknotm : k ∉ s.workItemCache.map Prod.fst)
    (hknot : k ∉ s.workItemCacheKeys) :
    setWorkItemCache s k tid eid ttl now =
      ⟨s.workItemCache ++ [(k, ⟨k, tid, eid, now + ttl⟩)], s.workItemCacheKeys ++ [k]⟩ := by
  have hcond : ¬((getAssoc s.workItemCache k).isNone = true ∧
      MAX_CACHE_SIZE ≤ s.workItemCacheKeys.length) := by
    rintro ⟨-, hge⟩
    omega
  simp only [setWorkItemCache, if_neg hcond]
  rw [updateCacheUsage, List.erase_of_not_mem hknot, setAssoc_of_not_mem _ _ _ hknotm]

theorem setWorkItemCache_full (s : CacheState) (k tid eid : String) (ttl now : Int)
    (h : String) (rest : List String) (hkeys : s.workItemCacheKeys = h :: rest)
    (hfresh : getAssoc s.workItemCache k = none)
    (hlen : MAX_CACHE_SIZE ≤ s.workItemCacheKeys.length)
    (hh : h ≠ "") (hknot : k ∉ s.workItemCacheKeys) :
    setWorkItemCache s k tid eid ttl now =
      ⟨mapDelete s.workItemCache h ++ [(k, ⟨k, tid, eid, now + ttl⟩)], rest ++ [k]⟩ := by
  have hcond : (getAssoc s.workItemCache k).isNone = true ∧
      MAX_CACHE_SIZE ≤ s.workItemCacheKeys.length := ⟨by rw [hfresh]; rfl, hlen⟩
  simp only [setWorkItemCache, if_pos hcond]
  have hev : evictCache s = ⟨mapDelete s.workItemCache h, rest⟩ := by
    unfold evictCache
    rw [hkeys]
    simp [hh]
  rw [hev]
  have hknotm : k ∉ (mapDelete s.workItemCache h).map Prod.fst := by
    intro hmem
    exact (getAssoc_eq_none_iff s.workItemCache k).mp hfresh
      ((mem_keys_mapDelete s.workItemCache h k).mp hmem).1
  have hknr : k ∉ rest := fun hm => hknot (hkeys ▸ List.mem_cons_of_mem h hm)
  rw [setAssoc_of_not_mem _ _ _ hknotm]
  rw [updateCacheUsage, List.erase_of_not_mem hknr]

theorem insertKeys_below_cap : ∀ (ks : List String) (tid eid : String) (ttl now : Int),
    ks.Nodup → ks.length ≤ MAX_CACHE_SIZE →
    insertKeys emptyCacheState ks tid eid ttl now =
      ⟨mapOfKeys ks tid eid (now + ttl), ks⟩ := by
  intro ks
  induction ks using List.reverseRecOn with
  | nil => intro tid eid ttl now _ _; rfl
  | append_singleton ks k ih =>
    intro tid eid ttl now hnd hlen
    rw [List.nodup_append] at hnd
    obtain ⟨hnd1, -, hdisj⟩ := hnd
    have hknot : k ∉ ks := fun hk => hdisj hk (List.mem_singleton_self k)
    have hlen1 : ks.length < MAX_CACHE_SIZE := by
      rw [List.length_append, List.length_singleton] at hlen
      omega
    have hfold : insertKeys emptyCacheState (ks ++ [k]) tid eid ttl now =
        setWorkItemCache (insertKeys emptyCacheState ks tid eid ttl now) k tid eid ttl now := by
      unfold insertKeys
      rw [List.foldl_append]
      rfl
    rw [hfold, ih tid eid ttl now hnd1 (le_of_lt hlen1)]
    rw [setWorkItemCache_spare _ _ _ _ _ _ hlen1
      (by rw [keys_mapOfKeys]; exact hknot) hknot]
    simp [mapOfKeys]

theorem setWorkItemCache_evict_head (s : CacheState) (k2 tid2 eid2 : String)
    (ttl2 now2 : Int) (k3 : String) (hwf : CacheWF s)
    (hsome : (getAssoc s.workItemCache k3).isSome = true)
    (hnone : (getAssoc (setWorkItemCache s k2 tid2 eid2 ttl2 now2).workItemCache k3).isSome
      = false) :
    s.workItemCacheKeys.head? = some k3 := by
  obtain ⟨hnd, hndm, hsub1, hsub2, hcap, hne⟩ := hwf
  by_cases hcond : (getAssoc s.workItemCache k2).isNone = true ∧
      MAX_CACHE_SIZE ≤ s.workItemCacheKeys.length
  · have hgt : 0 < s.workItemCacheKeys.length := by
      have h2 := hcond.2
      simp only [MAX_CACHE_SIZE] at h2
      omega
    cases hkeys : s.workItemCacheKeys with
    | nil =>
      rw [hkeys] at hgt
      simp at hgt
    | cons h rest =>
      have hh : h ≠ "" := hne h (by rw [hkeys]; exact List.mem_cons_self h rest)
      have hmap : (setWorkItemCache s k2 tid2 eid2 ttl2 now2).workItemCache =
          setAssoc (evictCache s).workItemCache k2 ⟨k2, tid2, eid2, now2 + ttl2⟩ := by
        simp only [setWorkItemCache, if_pos hcond]
      have hevmap : (evictCache s).workItemCache = mapDelete s.workItemCache h := by
        unfold evictCache
        rw [hkeys]
        simp [hh]
      rw [hmap, hevmap] at hnone
      by_cases h32 : k3 = k2
      · rw [h32, getAssoc_setAssoc_self] at hnone
        simp at hnone
      · rw [getAssoc_setAssoc_ne _ _ _ _ h32] at hnone
        by_cases h3h : k3 = h
        · rw [h3h]
          rfl
        · rw [getAssoc_mapDelete_ne _ _ _ h3h] at hnone
          rw [hsome] at hnone
          cases hnone
  · have hmap : (setWorkItemCache s k2 tid2 eid2 ttl2 now2).workItemCache =
        setAssoc s.workItemCache k2 ⟨k2, tid2, eid2, now2 + ttl2⟩ := by
      simp only [setWorkItemCache, if_neg hcond]
    rw [hmap] at hnone
    by_cases h32 : k3 = k2
    · rw [h32, getAssoc_setAssoc_self] at hnone
      simp at hnone
    · rw [getAssoc_setAssoc_ne _ _ _ _ h32] at hnone
      rw [hsome] at hnone
      cases hnone

/-- C4 (amended with non-empty keys): inserting 101 distinct non-empty keys
into the empty cache leaves the first-inserted key absent and the 100 later
keys present, the map holding exactly 100 entries; over any call sequence
whose `set` keys are non-empty the map never exceeds the capacity of 100;
and one `setWorkItemCache` on a well-formed state evicts at most one entry,
namely the head of the LRU order. (The un-amended claim fails when the first
key is `""`: see the counterexample.) -/
theorem lruEviction_spec (ks : List String) (hlen : ks.length = 101) (hnd : ks.Nodup)
    (hne : ∀ k ∈ ks, k ≠ "") (tid eid : String) (ttl now : Int) :
    (∀ h0, ks.head? = some h0 →
      getAssoc (insertKeys emptyCacheState ks tid eid ttl now).workItemCache h0 = none) ∧
    (∀ k ∈ ks.tail,
      (getAssoc (insertKeys emptyCacheState ks tid eid ttl now).workItemCache k).isSome
        = true) ∧
    (insertKeys emptyCacheState ks tid eid ttl now).workItemCache.length = MAX_CACHE_SIZE ∧
    (∀ ops, (∀ op ∈ ops, cacheOpKeyNonempty op = true) →
      (runCacheOps ops).workItemCache.length ≤ MAX_CACHE_SIZE) ∧
    (∀ (s : CacheState) (k2 tid2 eid2 : String) (ttl2 now2 : Int) (k3 : String),
      CacheWF s → (getAssoc s.workItemCache k3).isSome = true →
      (getAssoc (setWorkItemCache s k2 tid2 eid2 ttl2 now2).workItemCache k3).isSome = false →
      s.workItemCacheKeys.head? = some k3) := by
  have hne0 : ks ≠ [] := by
    intro h
    rw [h] at hlen
    simp at hlen
  obtain ⟨init, klast, rfl⟩ : ∃ init klast, ks = init ++ [klast] :=
    ⟨ks.dropLast, ks.getLast hne0, (List.dropLast_append_getLast hne0).symm⟩
  have hleninit : init.length = 100 := by
    rw [List.length_append, List.length_singleton] at hlen
    omega
  obtain ⟨h, t, rfl⟩ : ∃ h t, init = h :: t := by
    cases init with
    | nil => simp at hleninit
    | cons a b => exact ⟨a, b, rfl⟩
  rw [List.nodup_append] at hnd
  obtain ⟨hnd1, -, hdisj⟩ := hnd
  have hklast_not : klast ∉ h :: t := fun hm => hdisj hm (List.mem_singleton_self klast)
  have hhnt : h ∉ t := (List.nodup_cons.mp hnd1).1
  have hlent : t.length = 99 := by
    simp only [List.length_cons] at hleninit
    omega
  have hh : h ≠ "" := hne h (List.mem_append_left _ (List.mem_cons_self h t))
  have h100 : insertKeys emptyCacheState (h :: t) tid eid ttl now =
      ⟨mapOfKeys (h :: t) tid eid (now + ttl), h :: t⟩ :=
    insertKeys_below_cap (h :: t) tid eid ttl now hnd1
      (by simp only [List.length_cons, hlent, MAX_CACHE_SIZE]; omega)
  have hfoldsplit : insertKeys emptyCacheState ((h :: t) ++ [klast]) tid eid ttl now =
      setWorkItemCache (insertKeys emptyCacheState (h :: t) tid eid ttl now)
        klast tid eid ttl now := by
    unfold insertKeys
    rw [List.foldl_append]
    rfl
  have hfresh : getAssoc (mapOfKeys (h :: t) tid eid (now + ttl)) klast = none :=
    (getAssoc_eq_none_iff _ _).mpr (by rw [keys_mapOfKeys]; exact hklast_not)
  have hdel : mapDelete (mapOfKeys (h :: t) tid eid (now + ttl)) h =
      mapOfKeys t tid eid (now + ttl) := by
    have hm1 : mapOfKeys (h :: t) tid eid (now + ttl) =
        (h, ⟨h, tid, eid, now + ttl⟩) :: mapOfKeys t tid eid (now + ttl) := rfl
    rw [hm1, mapDelete_cons, if_pos rfl]
    exact mapDelete_of_not_mem _ _ (by rw [keys_mapOfKeys]; exact hhnt)
  have hfinal : insertKeys emptyCacheState ((h :: t) ++ [klast]) tid eid ttl now =
      ⟨mapOfKeys (t ++ [klast]) tid eid (now + ttl), t ++ [klast]⟩ := by
    rw [hfoldsplit, h100]
    rw [setWorkItemCache_full _ klast tid eid ttl now h t rfl hfresh
      (by simp only [List.length_cons, hlent, MAX_CACHE_SIZE]; omega) hh hklast_not]
    rw [hdel]
    simp [mapOfKeys]
  rw [hfinal]
  refine ⟨?_, ?_, ?_, ?_, ?_⟩
  · intro h0 hh0
    have hh0' : h0 = h := by
      have : ((h :: t) ++ [klast]).head? = some h := rfl
      rw [this] at hh0
      exact (Option.some.injEq _ _).mp hh0.symm
    rw [hh0']
    refine (getAssoc_eq_none_iff _ _).mpr ?_
    rw [keys_mapOfKeys]
    intro hmem
    rcases List.mem_append.mp hmem with hm | hm
    · exact hhnt hm
    · simp only [List.mem_singleton] at hm
      exact hdisj (List.mem_cons_self h t) (by rw [← hm]; exact List.mem_singleton_self h)
  · intro k hk
    have hk2 : k ∈ t ++ [klast] := by
      simpa using hk
    exact (getAssoc_isSome_iff _ _).mpr (by rw [keys_mapOfKeys]; exact hk2)
  · show (mapOfKeys (t ++ [klast]) tid eid (now + ttl)).length = MAX_CACHE_SIZE
    rw [mapOfKeys, List.length_map, List.length_append, List.length_singleton, hlent]
    rfl
  · intro ops hops
    have hwf := cacheWF_run ops emptyCacheState cacheWF_empty hops
    obtain ⟨hnd2, hndm2, hsub12, hsub22, hcap2, -⟩ := hwf
    have hperm : (runCacheOps ops).workItemCacheKeys.Perm (cacheKeysOf (runCacheOps ops)) :=
      (List.perm_ext_iff_of_nodup hnd2 hndm2).mpr (fun a => ⟨hsub12 a, hsub22 a⟩)
    calc (runCacheOps ops).workItemCache.length
        = (cacheKeysOf (runCacheOps ops)).length := by simp [cacheKeysOf]
      _ = (runCacheOps ops).workItemCacheKeys.length := hperm.length_eq.symm
      _ ≤ MAX_CACHE_SIZE := hcap2
  · intro s k2 tid2 eid2 ttl2 now2 k3 hwf hs hn
    exact setWorkItemCache_evict_head s k2 tid2 eid2 ttl2 now2 k3 hwf hs hn

/-- Witness for `lruEviction_spec` at 101 concrete distinct one-character
keys. -/
theorem lruEviction_spec_witness :
    (insertKeys emptyCacheState c4WitKeys "t" "e" 1000000 0).workItemCache.length =
      MAX_CACHE_SIZE :=
  (lruEviction_spec c4WitKeys (by decide) (by decide) (by decide) "t" "e" 1000000 0).2.2.1

theorem insertKeys_full_rotate : ∀ (ys : List String) (s : CacheState) (tid eid : String)
    (ttl now : Int), CacheWF s → s.workItemCacheKeys.length = MAX_CACHE_SIZE →
    ys.Nodup → ys.length ≤ MAX_CACHE_SIZE →
    (∀ y ∈ ys, y ∉ s.workItemCacheKeys) → (∀ y ∈ ys, y ≠ "") →
    (insertKeys s ys tid eid ttl now).workItemCacheKeys =
        s.workItemCacheKeys.drop ys.length ++ ys ∧
    CacheWF (insertKeys s ys tid eid ttl now) ∧
    (insertKeys s ys tid eid ttl now).workItemCacheKeys.length = MAX_CACHE_SIZE := by
  intro ys
  induction ys with
  | nil =>
    intro s tid eid ttl now hwf hlen _ _ _ _
    exact ⟨by simp [insertKeys], hwf, by simpa [insertKeys] using hlen⟩
  | cons y ys ih =>
    intro s tid eid ttl now hwf hlen hnd hlenys hfresh hne
    obtain ⟨hknd, hkndm, hsub1, hsub2, hcap, hkne⟩ := hwf
    have hwf0 : CacheWF s := ⟨hknd, hkndm, hsub1, hsub2, hcap, hkne⟩
    have hy_ne : y ≠ "" := hne y (List.mem_cons_self _ _)
    have hy_notk : y ∉ s.workItemCacheKeys := hfresh y (List.mem_cons_self _ _)
    have hy_freshm : getAssoc s.workItemCache y = none :=
      (getAssoc_eq_none_iff _ _).mpr (fun hm => hy_notk (hsub2 y hm))
    obtain ⟨h, rest, hkeys⟩ : ∃ h rest, s.workItemCacheKeys = h :: rest := by
      cases hk2 : s.workItemCacheKeys with
      | nil =>
        rw [hk2] at hlen
        simp [MAX_CACHE_SIZE] at hlen
      | cons a b => exact ⟨a, b, rfl⟩
    have hh : h ≠ "" := hkne h (by rw [hkeys]; exact List.mem_cons_self _ _)
    have hstep : setWorkItemCache s y tid eid ttl now =
        ⟨mapDelete s.workItemCache h ++ [(y, ⟨y, tid, eid, now + ttl⟩)], rest ++ [y]⟩ :=
      setWorkItemCache_full s y tid eid ttl now h rest hkeys hy_freshm
        (le_of_eq hlen.symm) hh hy_notk
    have hwfstep : CacheWF (setWorkItemCache s y tid eid ttl now) :=
      cacheWF_set s y tid eid ttl now hwf0 hy_ne
    have hrestlen : rest.length + 1 = MAX_CACHE_SIZE := by
      have h1 : (h :: rest).length = MAX_CACHE_SIZE := hkeys ▸ hlen
      simpa using h1
    have hlenstep :
        (setWorkItemCache s y tid eid ttl now).workItemCacheKeys.length = MAX_CACHE_SIZE := by
      rw [hstep]
      show (rest ++ [y]).length = MAX_CACHE_SIZE
      rw [List.length_append, List.length_singleton]
      exact hrestlen
    have hstepkeys : (setWorkItemCache s y tid eid ttl now).workItemCacheKeys =
        rest ++ [y] := by rw [hstep]
    have hfresh2 : ∀ y2 ∈ ys,
        y2 ∉ (setWorkItemCache s y tid eid ttl now).workItemCacheKeys := by
      intro y2 hy2
      rw [hstepkeys]
      intro hm
      rcases List.mem_append.mp hm with hm | hm
      · exact hfresh y2 (List.mem_cons_of_mem _ hy2)
          (by rw [hkeys]; exact List.mem_cons_of_mem _ hm)
      · simp only [List.mem_singleton] at hm
        exact (List.nodup_cons.mp hnd).1 (hm ▸ hy2)
    have hlenys2 : ys.length ≤ MAX_CACHE_SIZE := by
      simp only [List.length_cons] at hlenys
      omega
    obtain ⟨ihkeys, ihwf, ihlen⟩ := ih (setWorkItemCache s y tid eid ttl now) tid eid ttl now
      hwfstep hlenstep (List.nodup_cons.mp hnd).2 hlenys2 hfresh2
      (fun y2 h2 => hne y2 (List.mem_cons_of_mem _ h2))
    have hfold : insertKeys s (y :: ys) tid eid ttl now =
        insertKeys (setWorkItemCache s y tid eid ttl now) ys tid eid ttl now := rfl
    refine ⟨?_, ?_, ?_⟩
    · rw [hfold, ihkeys, hstepkeys, hkeys]
      have hyslen : ys.length ≤ rest.length := by
        simp only [List.length_cons, MAX_CACHE_SIZE] at hlenys
        simp only [MAX_CACHE_SIZE] at hrestlen
        omega
      rw [List.drop_append_of_le_length hyslen]
      show rest.drop ys.length ++ [y] ++ ys = (h :: rest).drop (ys.length + 1) ++ (y :: ys)
      rw [List.drop_succ_cons, List.append_assoc]
      rfl
    · rw [hfold]
      exact ihwf
    · rw [hfold]
      exact ihlen

/-- C5 (amended with non-empty keys): in a well-formed cache at capacity, a
successful `getWorkItemCache k` followed by 100 fresh distinct non-empty
inserts keeps `k` present through the first 99 inserts, `k` is the head of
the LRU order just before the 100th, and the 100th insert evicts it. (The
un-amended claim fails for `k = ""`: see the counterexample.) -/
theorem lruTouch_spec (s0 : CacheState) (hwf : CacheWF s0)
    (hfull : s0.workItemCacheKeys.length = MAX_CACHE_SIZE)
    (k : String) (now : Int) (e : WorkItemIdCache)
    (hk : getAssoc s0.workItemCache k = some e) (hlive : now < e.expireTime)
    (ys : List String) (hyslen : ys.length = MAX_CACHE_SIZE) (hysnd : ys.Nodup)
    (hysfresh : ∀ y ∈ ys, getAssoc s0.workItemCache y = none)
    (hysne : ∀ y ∈ ys, y ≠ "")
    (tid eid : String) (ttl now2 : Int) :
    (∀ j < MAX_CACHE_SIZE,
      (getAssoc (insertKeys (getWorkItemCache s0 k now).2 (ys.take j) tid eid ttl
        now2).workItemCache k).isSome = true) ∧
    (insertKeys (getWorkItemCache s0 k now).2 (ys.take (MAX_CACHE_SIZE - 1)) tid eid ttl
        now2).workItemCacheKeys.head? = some k ∧
    getAssoc (insertKeys (getWorkItemCache s0 k now).2 ys tid eid ttl now2).workItemCache k
      = none := by
  obtain ⟨hnd, hndm, hsub1, hsub2, hcap, hne⟩ := hwf
  have hwf0 : CacheWF s0 := ⟨hnd, hndm, hsub1, hsub2, hcap, hne⟩
  have hkmem : k ∈ s0.workItemCacheKeys :=
    hsub2 k ((getAssoc_isSome_iff _ _).mp (by rw [hk]; rfl))
  have hwf1 : CacheWF (getWorkItemCache s0 k now).2 := cacheWF_get s0 k now hwf0
  have hkeys1 : (getWorkItemCache s0 k now).2.workItemCacheKeys =
      s0.workItemCacheKeys.erase k ++ [k] := by
    simp only [getWorkItemCache, hk, if_pos hlive]
    rfl
  have herase_len : (s0.workItemCacheKeys.erase k).length = MAX_CACHE_SIZE - 1 := by
    rw [List.length_erase_of_mem hkmem, hfull]
  have hlen1 : (getWorkItemCache s0 k now).2.workItemCacheKeys.length = MAX_CACHE_SIZE := by
    rw [hkeys1, List.length_append, List.length_singleton, herase_len]
    simp [MAX_CACHE_SIZE]
  have hknotys : k ∉ ys := by
    intro hm
    have h2 := hysfresh k hm
    rw [hk] at h2
    cases h2
  have hfresh1 : ∀ y ∈ ys, y ∉ (getWorkItemCache s0 k now).2.workItemCacheKeys := by
    intro y hy
    rw [hkeys1]
    intro hm
    rcases List.mem_append.mp hm with hm | hm
    · have h2 : y ∈ cacheKeysOf s0 := hsub1 y (List.mem_of_mem_erase hm)
      have h3 := (getAssoc_isSome_iff s0.workItemCache y).mpr h2
      rw [hysfresh y hy] at h3
      cases h3
    · simp only [List.mem_singleton] at hm
      exact hknotys (hm ▸ hy)
  refine ⟨?_, ?_, ?_⟩
  · intro j hj
    have htake_nd : (ys.take j).Nodup := (List.take_sublist j ys).nodup hysnd
    have htake_len_le : (ys.take j).length ≤ MAX_CACHE_SIZE := by
      rw [List.length_take]
      simp only [MAX_CACHE_SIZE] at hyslen hj ⊢
      omega
    obtain ⟨hkeysj, hwfj, -⟩ := insertKeys_full_rotate (ys.take j)
      (getWorkItemCache s0 k now).2 tid eid ttl now2 hwf1 hlen1 htake_nd htake_len_le
      (fun y hy => hfresh1 y (List.mem_of_mem_take hy))
      (fun y hy => hysne y (List.mem_of_mem_take hy))
    have htakej : (ys.take j).length = j := by
      rw [List.length_take]
      simp only [MAX_CACHE_SIZE] at hyslen hj
      omega
    have hjle : j ≤ (s0.workItemCacheKeys.erase k).length := by
      rw [herase_len]
      simp only [MAX_CACHE_SIZE] at hj ⊢
      omega
    have hkin : k ∈ (insertKeys (getWorkItemCache s0 k now).2 (ys.take j) tid eid ttl
        now2).workItemCacheKeys := by
      rw [hkeysj, hkeys1, htakej, List.drop_append_of_le_length hjle]
      exact List.mem_append_left _ (List.mem_append_right _ (List.mem_singleton_self k))
    obtain ⟨-, -, hsub1j, -, -, -⟩ := hwfj
    exact (getAssoc_isSome_iff _ _).mpr (hsub1j k hkin)
  · have h99nd : (ys.take (MAX_CACHE_SIZE - 1)).Nodup := (List.take_sublist _ ys).nodup hysnd
    have h99len : (ys.take (MAX_CACHE_SIZE - 1)).length ≤ MAX_CACHE_SIZE := by
      rw [List.length_take]
      simp only [MAX_CACHE_SIZE] at hyslen ⊢
      omega
    obtain ⟨hkeysj, -, -⟩ := insertKeys_full_rotate (ys.take (MAX_CACHE_SIZE - 1))
      (getWorkItemCache s0 k now).2 tid eid ttl now2 hwf1 hlen1 h99nd h99len
      (fun y hy => hfresh1 y (List.mem_of_mem_take hy))
      (fun y hy => hysne y (List.mem_of_mem_take hy))
    have htake99 : (ys.take (MAX_CACHE_SIZE - 1)).length = MAX_CACHE_SIZE - 1 := by
      rw [List.length_take]
      simp only [MAX_CACHE_SIZE] at hyslen ⊢
      omega
    rw [hkeysj, hkeys1, htake99]
    have hdrop : (s0.workItemCacheKeys.erase k ++ [k]).drop (MAX_CACHE_SIZE - 1) = [k] := by
      rw [List.drop_append_of_le_length (le_of_eq herase_len.symm)]
      rw [← herase_len, List.drop_length]
      rfl
    rw [hdrop]
    rfl
  · obtain ⟨hkeysj, hwfj, -⟩ := insertKeys_full_rotate ys
      (getWorkItemCache s0 k now).2 tid eid ttl now2 hwf1 hlen1 hysnd
      (le_of_eq hyslen) hfresh1 hysne
    have hdropall : ((getWorkItemCache s0 k now).2.workItemCacheKeys).drop ys.length = [] := by
      rw [hyslen, ← hlen1]
      exact List.drop_length _
    rw [hdropall, List.nil_append] at hkeysj
    obtain ⟨-, -, -, hsub2j, -, -⟩ := hwfj
    rw [getAssoc_eq_none_iff]
    intro hmem
    have h2 := hsub2j k hmem
    rw [hkeysj] at h2
    exact hknotys h2

set_option maxRecDepth 100000 in
set_option maxHeartbeats 4000000 in
/-- Witness for `lruTouch_spec` on a concrete full cache of 100 one-character
keys: after touching the first key and inserting 100 fresh keys, the touched
key is evicted. -/
theorem lruTouch_spec_witness :
    getAssoc (insertKeys (getWorkItemCache c5WitState (natKey 0) 0).2 c5WitFresh "t" "e"
      1000000 0).workItemCache (natKey 0) = none :=
  (lruTouch_spec c5WitState (by unfold CacheWF; decide) (by decide) (natKey 0) 0
    ⟨natKey 0, "t", "e", 1000000⟩ (by decide) (by decide) c5WitFresh (by decide) (by decide)
    (by decide) (by decide) "t" "e" 1000000 0).2.2

theorem not_mem_erase_updateCacheUsage (l : List String) (k : String) (hnd : l.Nodup) :
    k ∉ (updateCacheUsage l k).erase k := by
  have hknot : k ∉ l.erase k := by
    by_cases hm : k ∈ l
    · exact hnd.not_mem_erase
    · rw [List.erase_of_not_mem hm]
      exact hm
  rw [updateCacheUsage, List.erase_append_right _ hknot]
  intro hmem
  rcases List.mem_append.mp hmem with hm | hm
  · exact hknot hm
  · rw [List.erase_cons_head] at hm
    cases hm

/-- C3: after `setWorkItemCache k _ _ ttl` executed at `setTime`, a
`getWorkItemCache k` at any query time strictly before `setTime + ttl`
returns the cached entry and leaves `k` in the most-recently-used (last)
position of the key list, while a query at or after `setTime + ttl` returns
`none` and, as a side effect, deletes the entry and removes `k` from the
key list. -/
theorem getAfterSet_spec (s0 : CacheState) (h0 : s0.workItemCacheKeys.Nodup)
    (k tid eid : String) (ttl setTime q : Int) :
    (q < setTime + ttl →
      (getWorkItemCache (setWorkItemCache s0 k tid eid ttl setTime) k q).1 =
        some ⟨k, tid, eid, setTime + ttl⟩ ∧
      ((getWorkItemCache (setWorkItemCache s0 k tid eid ttl setTime) k
        q).2).workItemCacheKeys.getLast? = some k) ∧
    (setTime + ttl ≤ q →
      (getWorkItemCache (setWorkItemCache s0 k tid eid ttl setTime) k q).1 = none ∧
      getAssoc ((getWorkItemCache (setWorkItemCache s0 k tid eid ttl setTime) k
        q).2).workItemCache k = none ∧
      k ∉ ((getWorkItemCache (setWorkItemCache s0 k tid eid ttl setTime) k
        q).2).workItemCacheKeys) := by
  have hshape : setWorkItemCache s0 k tid eid ttl setTime =
      ⟨setAssoc (if (getAssoc s0.workItemCache k).isNone ∧
            MAX_CACHE_SIZE ≤ s0.workItemCacheKeys.length then evictCache s0
          else s0).workItemCache k ⟨k, tid, eid, setTime + ttl⟩,
        updateCacheUsage (if (getAssoc s0.workItemCache k).isNone ∧
            MAX_CACHE_SIZE ≤ s0.workItemCacheKeys.length then evictCache s0
          else s0).workItemCacheKeys k⟩ := rfl
  have hprend : (if (getAssoc s0.workItemCache k).isNone ∧
      MAX_CACHE_SIZE ≤ s0.workItemCacheKeys.length then evictCache s0
      else s0).workItemCacheKeys.Nodup := by
    split_ifs
    · rw [evictCache_keys]
      exact (List.tail_sublist _).nodup h0
    · exact h0
  rw [hshape]
  constructor
  · intro hq
    have hq2 : q < (⟨k, tid, eid, setTime + ttl⟩ : WorkItemIdCache).expireTime := hq
    constructor
    · simp only [getWorkItemCache, getAssoc_setAssoc_self, if_pos hq2]
    · simp only [getWorkItemCache, getAssoc_setAssoc_self, if_pos hq2]
      rw [updateCacheUsage, List.getLast?_concat]
  · intro hq
    have hq2 : ¬ q < (⟨k, tid, eid, setTime + ttl⟩ : WorkItemIdCache).expireTime :=
      not_lt.mpr hq
    refine ⟨?_, ?_, ?_⟩
    · simp only [getWorkItemCache, getAssoc_setAssoc_self, if_neg hq2]
    · simp only [getWorkItemCache, getAssoc_setAssoc_self, if_neg hq2]
      exact getAssoc_mapDelete_self _ k
    · simp only [getWorkItemCache, getAssoc_setAssoc_self, if_neg hq2]
      exact not_mem_erase_updateCacheUsage _ k hprend

/-- Witness for `getAfterSet_spec` at a concrete key and TTL. -/
theorem getAfterSet_spec_witness :
    (getWorkItemCache (setWorkItemCache emptyCacheState "K1" "t" "e" 10 0) "K1" 5).1 =
      some ⟨"K1", "t", "e", 10⟩ ∧
    (getWorkItemCache (setWorkItemCache emptyCacheState "K1" "t" "e" 10 0) "K1" 20).1 =
      none := by
  constructor
  · exact ((getAfterSet_spec emptyCacheState (by decide) "K1" "t" "e" 10 0 5).1 (by decide)).1
  · exact ((getAfterSet_spec emptyCacheState (by decide) "K1" "t" "e" 10 0 20).2 (by decide)).1

/-! ## Option color lemmas -/

theorem getOptionColor_first (fixed auto : OptionColorMap) (f o : String)
    (hfix : getAssoc fixed f = none) (hauto : getAssoc auto f = none) :
    getOptionColor fixed auto f o = ("1", setAssoc (setAssoc auto f []) f [(o, "1")]) := by
  simp only [getOptionColor, hfix, Option.none_bind, getOptionColorAuto, hauto,
    Option.isSome_none, Bool.false_eq_true, if_false, getAssoc_setAssoc_self,
    Option.getD_some]
  rfl

theorem getOptionColor_assign (fixed auto : OptionColorMap) (f o : String)
    (fm : FieldOptionColors)
    (hfix : getAssoc fixed f = none) (hauto : getAssoc auto f = some fm)
    (hmiss : getAssoc fm o = none) :
    getOptionColor fixed auto f o =
      (match colors.find? (fun c => !((fm.map Prod.snd).contains c)) with
        | some c => c
        | none => colors.getD (fm.length % colors.length) "",
       setAssoc auto f (setAssoc fm o
        (match colors.find? (fun c => !((fm.map Prod.snd).contains c)) with
          | some c => c
          | none => colors.getD (fm.length % colors.length) ""))) := by
  simp only [getOptionColor, hfix, Option.none_bind, getOptionColorAuto, hauto,
    Option.isSome_some, if_true, Option.getD_some, hmiss, assignOptionColor]

theorem getOptionColor_stable (fixed auto : OptionColorMap) (f o : String)
    (fm : FieldOptionColors) (c : String)
    (hfix : getAssoc fixed f = none) (hauto : getAssoc auto f = some fm)
    (hgot : getAssoc fm o = some c) (hc : c ≠ "") :
    getOptionColor fixed auto f o = (c, auto) := by
  simp only [getOptionColor, hfix, Option.none_bind, getOptionColorAuto, hauto,
    Option.isSome_some, if_true, Option.getD_some, hgot, if_pos hc]

theorem getOptionColor_assign_found (fixed auto : OptionColorMap) (f o : String)
    (fm : FieldOptionColors) (col : String)
    (hfix : getAssoc fixed f = none) (hauto : getAssoc auto f = some fm)
    (hmiss : getAssoc fm o = none)
    (hfind : colors.find? (fun c => !((fm.map Prod.snd).contains c)) = some col) :
    getOptionColor fixed auto f o = (col, setAssoc auto f (setAssoc fm o col)) := by
  rw [getOptionColor_assign fixed auto f o fm hfix hauto hmiss, hfind]

/-- C6: option colors for a field with no fixed colors are assigned
deterministically — distinct options requested in order receive the palette
colors in index order starting at `"1"`; re-requesting an already assigned
option returns the same color and leaves the map unchanged; and once every
one of the 14 palette colors is used for the field, a new option receives
the color at index `(number of assigned options) mod 14`. -/
theorem getOptionColor_spec :
    (∀ (fixed auto : OptionColorMap) (f A B C : String),
      getAssoc fixed f = none → getAssoc auto f = none →
      A ≠ B → A ≠ C → B ≠ C →
      (getOptionColor fixed auto f A).1 = "1" ∧
      (getOptionColor fixed (getOptionColor fixed auto f A).2 f B).1 = "2" ∧
      (getOptionColor fixed
        (getOptionColor fixed (getOptionColor fixed auto f A).2 f B).2 f C).1 = "3") ∧
    (∀ (fixed auto : OptionColorMap) (f o : String) (fm : FieldOptionColors) (c : String),
      getAssoc fixed f = none → getAssoc auto f = some fm →
      getAssoc fm o = some c → c ≠ "" →
      getOptionColor fixed auto f o = (c, auto)) ∧
    (∀ (fixed auto : OptionColorMap) (f o : String) (fm : FieldOptionColors),
      getAssoc fixed f = none → getAssoc auto f = some fm →
      getAssoc fm o = none → (∀ c ∈ colors, c ∈ fm.map Prod.snd) →
      (getOptionColor fixed auto f o).1 = colors.getD (fm.length % colors.length) "") := by
  refine ⟨?_, ?_, ?_⟩
  · intro fixed auto f A B C hfix hauto hAB hAC hBC
    have h1 : getOptionColor fixed auto f A =
        ("1", setAssoc (setAssoc auto f []) f [(A, "1")]) :=
      getOptionColor_first fixed auto f A hfix hauto
    have hs1f : getAssoc (setAssoc (setAssoc auto f []) f [(A, "1")]) f = some [(A, "1")] :=
      getAssoc_setAssoc_self _ _ _
    have hmB : getAssoc [(A, "1")] B = none := by simp [getAssoc, hAB]
    have hsetB : setAssoc [(A, "1")] B "2" = [(A, "1"), (B, "2")] := by
      simp [setAssoc, hAB]
    have h2 : getOptionColor fixed (setAssoc (setAssoc auto f []) f [(A, "1")]) f B =
        ("2", setAssoc (setAssoc (setAssoc auto f []) f [(A, "1")]) f [(A, "1"), (B, "2")]) := by
      have h2a := getOptionColor_assign_found fixed
        (setAssoc (setAssoc auto f []) f [(A, "1")]) f B [(A, "1")] "2" hfix hs1f hmB rfl
      rw [hsetB] at h2a
      exact h2a
    have hs2f : getAssoc (setAssoc (setAssoc (setAssoc auto f []) f [(A, "1")]) f
        [(A, "1"), (B, "2")]) f = some [(A, "1"), (B, "2")] :=
      getAssoc_setAssoc_self _ _ _
    have hmC : getAssoc [(A, "1"), (B, "2")] C = none := by simp [getAssoc, hAC, hBC]
    have h3 := getOptionColor_assign_found fixed
      (setAssoc (setAssoc (setAssoc auto f []) f [(A, "1")]) f [(A, "1"), (B, "2")]) f C
      [(A, "1"), (B, "2")] "3" hfix hs2f hmC rfl
    refine ⟨by rw [h1], by rw [h1, h2], by rw [h1, h2, h3]⟩
  · intro fixed auto f o fm c hfix hauto hgot hc
    exact getOptionColor_stable fixed auto f o fm c hfix hauto hgot hc
  · intro fixed auto f o fm hfix hauto hmiss hall
    have hfind : colors.find? (fun c => !((fm.map Prod.snd).contains c)) = none := by
      rw [List.find?_eq_none]
      intro c hc
      simp only [Bool.not_eq_true, Bool.not_not]
      simpa using hall c hc
    rw [getOptionColor_assign fixed auto f o fm hfix hauto hmiss, hfind]

/-- Witness for `getOptionColor_spec` at the concrete field `F` and options
`Alpha`, `Beta`, `Gamma` from an empty color state. -/
theorem getOptionColor_spec_witness :
    (getOptionColor [] [] "F" "Alpha").1 = "1" ∧
    (getOptionColor [] (getOptionColor [] [] "F" "Alpha").2 "F" "Beta").1 = "2" ∧
    (getOptionColor []
      (getOptionColor [] (getOptionColor [] [] "F" "Alpha").2 "F" "Beta").2 "F" "Gamma").1
      = "3" :=
  getOptionColor_spec.1 [] [] "F" "Alpha" "Beta" "Gamma" rfl rfl (by decide) (by decide)
    (by decide)
